import Mathlib

/-!
# devdash: host widgets (`internal/remote_host_widget.go`)

A shallow embedding of the host-widget dispatcher and its twelve builders,
together with the parts of the Go standard library they call
(`strings.Replace`, `strings.TrimSpace`, `strings.Split`, `strings.ToUpper`,
`time.Duration.String`, `strconv.FormatFloat`).

Conventions of the embedding.

* A Go `string` is a Lean `String`; library functions work on its list of
  runes.
* A Go `map[string]string` is an association list read with `List.lookup`.
* The pointer receiver `ms *HostWidget` is passed explicitly; the metrics
  service it points to is a table of methods over a state `σ`, and every call
  made to it is appended to a trace.
* The closure `func() error` returned by a builder is the rendering-sink call
  that its body performs, with the captured variables as arguments. The
  pointer `ms` and the option map are shared with the caller: the field
  `ms.tui` and the contents of the map are read when the closure runs
  (`RenderJob.invoke`).
-/

set_option autoImplicit false

namespace Devdash

/-! ## Go values -/

/-- A Go `error` value, identified by its message. -/
structure GoError where
  msg : String
  deriving DecidableEq, Repr

/-- The `float64` values: `(-1)^neg * m * 2^e`, the infinities and NaN. -/
inductive Float64 where
  | finite (neg : Bool) (m : Nat) (e : Int)
  | inf (neg : Bool)
  | nan
  deriving DecidableEq, Repr

/-- The Unicode case tables of Go's `unicode` package, used for runes outside
ASCII (`unicode.To(unicode.UpperCase, r)`). -/
class CaseTables where
  toUpperCase : Char → Char

/-! ## `unicode` and `strings` -/

namespace unicode

/-- The function `unicode.IsSpace`: the Latin-1 switch, then the `White_Space` table. -/
def IsSpace (r : Char) : Bool :=
  if r.toNat ≤ 0xFF then
    r = '\t' || r = '\n' || r.toNat = 0x0B || r.toNat = 0x0C || r = '\r' || r = ' '
      || r.toNat = 0x85 || r.toNat = 0xA0
  else
    r.toNat = 0x1680 || (0x2000 ≤ r.toNat && r.toNat ≤ 0x200A) || r.toNat = 0x2028
      || r.toNat = 0x2029 || r.toNat = 0x202F || r.toNat = 0x205F || r.toNat = 0x3000

/-- The function `unicode.ToUpper`: ASCII letters are shifted, other runes go
through the case tables. -/
def ToUpper [CaseTables] (r : Char) : Char :=
  if r.toNat ≤ 0x7F then
    if 'a'.toNat ≤ r.toNat ∧ r.toNat ≤ 'z'.toNat then Char.ofNat (r.toNat - 32) else r
  else CaseTables.toUpperCase r

end unicode

namespace strings

/-- Replace the first occurrence of `old` in a rune list by `new`. -/
def replaceFirst (old new : List Char) : List Char → List Char
  | [] => []
  | c :: cs =>
    if old.isPrefixOf (c :: cs) then new ++ (c :: cs).drop old.length
    else c :: replaceFirst old new cs

/-- The call `strings.Replace(s, old, new, 1)` for a non-empty `old`:
the first occurrence of `old`, if any, is replaced by `new`. -/
def Replace1 (s old new : String) : String :=
  ⟨replaceFirst old.data new.data s.data⟩

/-- The function `strings.TrimSpace`: leading and trailing white space removed. -/
def TrimSpace (s : String) : String :=
  ⟨(s.data.dropWhile unicode.IsSpace).rdropWhile unicode.IsSpace⟩

/-- Pieces of a rune list between occurrences of the rune `sep`. -/
def splitRunes (sep : Char) : List Char → List (List Char)
  | [] => [[]]
  | c :: cs =>
    if c = sep then [] :: splitRunes sep cs
    else
      match splitRunes sep cs with
      | [] => [[c]]
      | p :: ps => (c :: p) :: ps

/-- The call `strings.Split(s, sep)` for a separator of one rune: all pieces
of `s` between separators, in order; `Split("", sep)` is `[""]`. -/
def Split (s : String) (sep : Char) : List String :=
  (splitRunes sep s.data).map String.mk

/-- The function `strings.Join`: the elements with `sep` between them. -/
def Join (elems : List String) (sep : String) : String :=
  ⟨sep.data.intercalate (elems.map String.data)⟩

/-- The function `strings.ToUpper`: every rune mapped through `unicode.ToUpper`. -/
def ToUpper [CaseTables] (s : String) : String :=
  ⟨s.data.map unicode.ToUpper⟩

end strings

/-! ## `strconv` and float conversion -/

/-- Decimal digits of `v`, most significant first, pushed in front of `acc`
(the loop of `fmtInt`, `v` shrinking by a factor ten per round). -/
def fmtDigits : Nat → Nat → List Char → List Char
  | 0, _, acc => acc
  | fuel + 1, v, acc =>
    if v = 0 then acc else fmtDigits fuel (v / 10) (Char.ofNat (v % 10 + 48) :: acc)

/-- The helper `fmtInt` of package `time` (also `%d` on a non-negative
integer): `"0"` for zero, else the decimal digits. -/
def fmtInt (v : Nat) : List Char :=
  if v = 0 then ['0'] else fmtDigits (v + 1) v []

namespace Float64

/-- Hundredths of the magnitude `m * 2^e`, rounded half to even. -/
def hundredths (m : Nat) (e : Int) : Nat :=
  match e with
  | Int.ofNat k => m * 2 ^ k * 100
  | Int.negSucc k =>
    let q := m * 100 / 2 ^ (k + 1)
    let r := m * 100 % 2 ^ (k + 1)
    if 2 ^ (k + 1) < 2 * r ∨ (2 * r = 2 ^ (k + 1) ∧ q % 2 = 1) then q + 1 else q

/-- The conversion `int(f)` of a float: truncation toward zero; what Go leaves
to the implementation (NaN, infinities, values outside `int64`) is the amd64
result `-2^63`. -/
def toInt : Float64 → Int
  | finite neg m e =>
    let mag : Nat :=
      match e with
      | Int.ofNat k => m * 2 ^ k
      | Int.negSucc k => m / 2 ^ (k + 1)
    let v : Int := if neg then -(mag : Int) else (mag : Int)
    if -(2 : Int) ^ 63 ≤ v ∧ v < (2 : Int) ^ 63 then v else -(2 : Int) ^ 63
  | inf _ => -(2 : Int) ^ 63
  | nan => -(2 : Int) ^ 63

end Float64

namespace strconv

/-- The call `strconv.FormatFloat(f, 'f', 2, 64)`. -/
def FormatFloat_f2 : Float64 → String
  | Float64.nan => "NaN"
  | Float64.inf false => "+Inf"
  | Float64.inf true => "-Inf"
  | Float64.finite neg m e =>
    let n := Float64.hundredths m e
    ⟨(if neg then ['-'] else []) ++ fmtInt (n / 100) ++ ['.']
      ++ [Char.ofNat (n % 100 / 10 + 48), Char.ofNat (n % 10 + 48)]⟩

end strconv

/-! ## `time.Duration` -/

namespace time

/-! A `time.Duration` is a count of nanoseconds (`int64`), here an `Int`. -/

def Nanosecond : Int := 1
def Microsecond : Int := 1000 * Nanosecond
def Millisecond : Int := 1000 * Microsecond
def Second : Int := 1000 * Millisecond
def Minute : Int := 60 * Second
def Hour : Int := 60 * Minute

/-- The loop of `fmtFrac`: `prec` digits of `v` are consumed from the right;
a digit is written once a non-zero digit has been seen. -/
def fmtFracLoop : Nat → Nat → Bool → List Char → List Char × Nat × Bool
  | 0, v, print, buf => (buf, v, print)
  | i + 1, v, print, buf =>
    let digit := v % 10
    let print := print || digit != 0
    fmtFracLoop i (v / 10) print (if print then Char.ofNat (digit + 48) :: buf else buf)

/-- The helper `fmtFrac`: writes the fraction `v / 10^prec` in front of `buf`,
trailing zeros and a bare decimal point omitted; returns `v / 10^prec`. -/
def fmtFrac (buf : List Char) (v : Nat) (prec : Nat) : List Char × Nat :=
  match fmtFracLoop prec v false buf with
  | (buf, v, print) => (if print then '.' :: buf else buf, v)

/-- The method `Duration.String`: `"72h3m0.5s"`, `"0s"`, `"1.5ms"`; the
buffer is written from its end, so every write goes in front. -/
def Duration.String (d : Int) : String :=
  let u : Nat := d.natAbs
  let buf : List Char :=
    if u < Second.natAbs then
      if u = 0 then ['0', 's']
      else if u < Microsecond.natAbs then
        match fmtFrac ['n', 's'] u 0 with
        | (buf, u) => fmtInt u ++ buf
      else if u < Millisecond.natAbs then
        match fmtFrac ['µ', 's'] u 3 with
        | (buf, u) => fmtInt u ++ buf
      else
        match fmtFrac ['m', 's'] u 6 with
        | (buf, u) => fmtInt u ++ buf
    else
      match fmtFrac ['s'] u 9 with
      | (buf, u) =>
        let buf := fmtInt (u % 60) ++ buf
        let u := u / 60
        if 0 < u then
          let buf := fmtInt (u % 60) ++ 'm' :: buf
          let u := u / 60
          if 0 < u then fmtInt u ++ 'h' :: buf else buf
        else buf
  ⟨if d < 0 then '-' :: buf else buf⟩

/-- The test `d.Hours() > 24.0`. `Hours` is
`float64(d / Hour) + float64(d % Hour) / (60 * 60 * 1e9)`; the whole hours are
exact in `float64`, the fraction lies in `(-1, 1)` and is at least `2^-42` in
magnitude when non-zero, far above half an ulp of 24, so the float comparison
holds exactly when `d` exceeds 24 hours. -/
def Duration.hoursExceed24 (d : Int) : Bool :=
  decide (24 * Hour < d)

end time

open time in
/-- One day-extraction loop of `formatSeconds`:
`for dur.Hours() > 24.0 { days++; dur -= 24 * time.Hour }`. -/
def dayLoop (days : Nat) (dur : Int) : Nat × Int :=
  if h : Duration.hoursExceed24 dur = true then dayLoop (days + 1) (dur - 24 * Hour)
  else (days, dur)
termination_by (dur - 24 * time.Hour).toNat
decreasing_by
  simp only [Duration.hoursExceed24, decide_eq_true_eq] at h
  have hH : time.Hour = 3600000000000 := by decide
  rw [hH] at h ⊢
  omega

/-- The final loop of `formatSeconds`: every rune of `s1` is appended to `s2`,
followed by a space after `h` and `m`. -/
def spaceUnits (s2 : String) (s1 : String) : String :=
  s1.data.foldl
    (fun s2 ch => if ch = 'h' ∨ ch = 'm' then (s2.push ch).push ' ' else s2.push ch) s2

open time in
/-- The function `formatSeconds`. -/
def formatSeconds (dur : Int) : String :=
  let dur := dur - dur.tmod Second
  match dayLoop 0 dur with
  | (days, dur) =>
    match dayLoop days dur with
    | (days, dur) =>
      let s1 := Duration.String dur
      let s2 : String := if 0 < days then ⟨fmtInt days ++ ['d', ' ']⟩ else ""
      spaceUnits s2 s1

/-! ## Widgets, the metrics service and the rendering sink -/

/-- The type `map[string]string` of widget options. -/
abbrev Options := List (String × String)

/-- Modelled from the spec: the struct `Widget` (WidgetSpec: a kind identifier
and a string-keyed option set); its declaration is outside this file. -/
structure Widget where
  Name : String
  Options : Options
  deriving DecidableEq, Repr

/-- Modelled from the spec: the option key `title`. -/
def optionTitle : String := "title"
/-- Modelled from the spec: the option key `unit`. -/
def optionUnit : String := "unit"
/-- Modelled from the spec: the option key `metrics`. -/
def optionMetrics : String := "metrics"
/-- Modelled from the spec: the option key `headers`. -/
def optionHeaders : String := "headers"
/-- Modelled from the spec: the option key `command`. -/
def optionCommand : String := "command"

def rhUptime : String := "rh.box_uptime"
def rhLoad : String := "rh.box_load"
def rhProcesses : String := "rh.box_processes"
def rhBoxCPURate : String := "rh.box_cpu_rate"
def rhBoxMemRate : String := "rh.box_memory_rate"
def rhBoxSwapRate : String := "rh.box_swap_rate"
def rhBoxNetIO : String := "rh.box_net_io"
def rhBoxDiskIO : String := "rh.box_disk_io"
def rhBarMemory : String := "rh.bar_memory"
def rhBarRates : String := "rh.bar_rates"
def rhTableDisk : String := "rh.table_disk"
def rhTable : String := "rh.table"

/-- A call to the metrics service `*platform.Host`, with its arguments. -/
inductive Call where
  | Load
  | Processes
  | Uptime
  | CPURate
  | MemoryRate
  | SwapRate
  | NetIO (unit : String)
  | DiskIO (unit : String)
  | Memory (metrics : List String) (unit : String)
  | Disk (headers : List String) (unit : String)
  | Table (command : String) (headers : List String)
  deriving DecidableEq, Repr

/-- An entry of the call trace: the call and the error it returned, if any. -/
structure CallRecord where
  call : Call
  err : Option GoError
  deriving DecidableEq, Repr

/-- Modelled from the spec: the metrics service `platform.Host` (spec §6), a
table of methods over a service state `σ`; each returns a value or an error
and the next state. -/
structure Host (σ : Type) where
  Load : σ → Except GoError String × σ
  Processes : σ → Except GoError String × σ
  Uptime : σ → Except GoError Int × σ
  CPURate : σ → Except GoError Float64 × σ
  MemoryRate : σ → Except GoError Float64 × σ
  SwapRate : σ → Except GoError Float64 × σ
  NetIO : String → σ → Except GoError String × σ
  DiskIO : String → σ → Except GoError String × σ
  Memory : List String → String → σ → Except GoError (List Int) × σ
  Disk : List String → String → σ → Except GoError (List (List String)) × σ
  Table : String → List String → σ → Except GoError (List (List String)) × σ

/-- The running service: its state and the trace of calls made so far. -/
structure Svc (σ : Type) where
  state : σ
  trace : List CallRecord

/-- The error of a call result, `nil` on success. -/
def errOf {α : Type} : Except GoError α → Option GoError
  | Except.error e => some e
  | Except.ok _ => none

/-- Perform the service call `c`, implemented by `m`, and record it. -/
def Svc.invoke {σ α : Type} (s : Svc σ) (c : Call) (m : σ → Except GoError α × σ) :
    Except GoError α × Svc σ :=
  ((m s.state).1, ⟨(m s.state).2, s.trace ++ [⟨c, errOf (m s.state).1⟩]⟩)

/-- Modelled from the spec: the rendering sink `*Tui`, known by its handle. -/
structure Tui where
  handle : Nat
  deriving DecidableEq, Repr

/-- The closure `func() error` a builder returns: the one sink call of its
body, with the captured title, snapshot and options. The options are the map
`widget.Options` as it stood when the closure was made; the closure holds the
map itself, and `RenderJob.invoke` passes what the map holds when it runs. -/
inductive RenderJob where
  | AddTextBox (content : String) (title : String) (options : Options)
  | AddBarChart (values : List Int) (labels : List String) (title : String)
      (options : Options)
  | AddTable (rows : List (List String)) (title : String) (options : Options)
  deriving DecidableEq, Repr

/-- The title argument of the sink call. -/
def RenderJob.title : RenderJob → String
  | RenderJob.AddTextBox _ t _ => t
  | RenderJob.AddBarChart _ _ t _ => t
  | RenderJob.AddTable _ t _ => t

/-- The struct `HostWidget`. -/
structure HostWidget (σ : Type) where
  tui : Option Tui
  service : Host σ

/-- The results `(f, err)` of a builder, and the service after its calls. -/
structure Built (σ : Type) where
  f : Option RenderJob
  err : Option GoError
  svc : Svc σ

/-- The statement `return nil, err`. -/
def Built.fail {σ : Type} (err : GoError) (s : Svc σ) : Built σ := ⟨none, some err, s⟩

/-- The final `return` with `f` set and `err` nil. -/
def Built.ok {σ : Type} (f : RenderJob) (s : Svc σ) : Built σ := ⟨some f, none, s⟩

/-! ## The builders -/

def boxLoad {σ : Type} (ms : HostWidget σ) (widget : Widget) (s : Svc σ) : Built σ :=
  let title := (widget.Options.lookup optionTitle).getD " Load "
  match s.invoke Call.Load ms.service.Load with
  | (Except.error err, s) => Built.fail err s
  | (Except.ok load, s) => Built.ok (RenderJob.AddTextBox load title widget.Options) s

def boxProcesses {σ : Type} (ms : HostWidget σ) (widget : Widget) (s : Svc σ) : Built σ :=
  let title := (widget.Options.lookup optionTitle).getD " Running processes "
  match s.invoke Call.Processes ms.service.Processes with
  | (Except.error err, s) => Built.fail err s
  | (Except.ok procs, s) => Built.ok (RenderJob.AddTextBox procs title widget.Options) s

def boxUptime {σ : Type} (ms : HostWidget σ) (widget : Widget) (s : Svc σ) : Built σ :=
  let title := (widget.Options.lookup optionTitle).getD " Uptime "
  match s.invoke Call.Uptime ms.service.Uptime with
  | (Except.error err, s) => Built.fail err s
  | (Except.ok uptime, s) => Built.ok (RenderJob.AddTextBox (formatSeconds uptime) title widget.Options) s

def boxCPURate {σ : Type} (ms : HostWidget σ) (widget : Widget) (s : Svc σ) : Built σ :=
  let title := (widget.Options.lookup optionTitle).getD " CPU usage "
  match s.invoke Call.CPURate ms.service.CPURate with
  | (Except.error err, s) => Built.fail err s
  | (Except.ok rate, s) => Built.ok (RenderJob.AddTextBox (strconv.FormatFloat_f2 rate ++ " %") title widget.Options) s

def boxMemRate {σ : Type} (ms : HostWidget σ) (widget : Widget) (s : Svc σ) : Built σ :=
  let title := (widget.Options.lookup optionTitle).getD " Memory usage "
  match s.invoke Call.MemoryRate ms.service.MemoryRate with
  | (Except.error err, s) => Built.fail err s
  | (Except.ok memRate, s) => Built.ok (RenderJob.AddTextBox (strconv.FormatFloat_f2 memRate ++ " %") title widget.Options) s

def boxSwapRate {σ : Type} (ms : HostWidget σ) (widget : Widget) (s : Svc σ) : Built σ :=
  let title := (widget.Options.lookup optionTitle).getD " Swap usage "
  match s.invoke Call.SwapRate ms.service.SwapRate with
  | (Except.error err, s) => Built.fail err s
  | (Except.ok swapRate, s) => Built.ok (RenderJob.AddTextBox (strconv.FormatFloat_f2 swapRate ++ " %") title widget.Options) s

def barRates {σ : Type} (ms : HostWidget σ) (widget : Widget) (s : Svc σ) : Built σ :=
  let title := (widget.Options.lookup optionTitle).getD " Resources usage (%) "
  match s.invoke Call.SwapRate ms.service.SwapRate with
  | (Except.error err, s) => Built.fail err s
  | (Except.ok swapRate, s) =>
    match s.invoke Call.CPURate ms.service.CPURate with
    | (Except.error err, s) => Built.fail err s
    | (Except.ok cpuRate, s) =>
      match s.invoke Call.MemoryRate ms.service.MemoryRate with
      | (Except.error err, s) => Built.fail err s
      | (Except.ok memoryRate, s) =>
        Built.ok
          (RenderJob.AddBarChart
            [Float64.toInt cpuRate, Float64.toInt memoryRate, Float64.toInt swapRate]
            ["CPU", "Memory", "Swap"] title widget.Options) s

def boxNetIO {σ : Type} [CaseTables] (ms : HostWidget σ) (widget : Widget) (s : Svc σ) : Built σ :=
  let unit := (widget.Options.lookup optionUnit).getD "kb"
  let title :=
    (widget.Options.lookup optionTitle).getD (" Net I/O (" ++ strings.ToUpper unit ++ ") ")
  match s.invoke ( Call.NetIO unit) ( Host.NetIO ms.service unit) with
  | (Except.error err, s) => Built.fail err s
  | (Except.ok netio, s) => Built.ok (RenderJob.AddTextBox netio title widget.Options) s

def boxDiskIO {σ : Type} [CaseTables] (ms : HostWidget σ) (widget : Widget) (s : Svc σ) : Built σ :=
  let unit := (widget.Options.lookup optionUnit).getD "kb"
  let title :=
    (widget.Options.lookup optionTitle).getD (" Disk I/O (" ++ strings.ToUpper unit ++ ") ")
  match s.invoke ( Call.DiskIO unit) ( Host.DiskIO ms.service unit) with
  | (Except.error err, s) => Built.fail err s
  | (Except.ok diskio, s) => Built.ok (RenderJob.AddTextBox diskio title widget.Options) s

def barMemory {σ : Type} [CaseTables] (ms : HostWidget σ) (widget : Widget) (s : Svc σ) : Built σ :=
  let metrics : List String :=
    match widget.Options.lookup optionMetrics with
    | some v =>
      if 0 < v.length then strings.Split (strings.TrimSpace v) ','
      else ["MemTotal", "MemFree", "MemAvailable"]
    | none => ["MemTotal", "MemFree", "MemAvailable"]
  let headers : List String :=
    match widget.Options.lookup optionHeaders with
    | some v => if 0 < v.length then strings.Split (strings.TrimSpace v) ',' else metrics
    | none => metrics
  let unit := (widget.Options.lookup optionUnit).getD "kb"
  let title :=
    (widget.Options.lookup optionTitle).getD (" Memory (" ++ strings.ToUpper unit ++ ") ")
  match s.invoke (Call.Memory metrics unit) (ms.service.Memory metrics unit) with
  | (Except.error err, s) => Built.fail err s
  | (Except.ok mem, s) => Built.ok (RenderJob.AddBarChart mem headers title widget.Options) s

def tableDisk {σ : Type} (ms : HostWidget σ) (widget : Widget) (s : Svc σ) : Built σ :=
  let unit := (widget.Options.lookup optionUnit).getD "gb"
  let title := (widget.Options.lookup optionTitle).getD " Disks "
  let headers := ["Filesystem", "Size", "Used", "Available", "Use%", "Mount"]
  match s.invoke (Call.Disk headers unit) (ms.service.Disk headers unit) with
  | (Except.error err, s) => Built.fail err s
  | (Except.ok data, s) => Built.ok (RenderJob.AddTable data title widget.Options) s

def table {σ : Type} (ms : HostWidget σ) (widget : Widget) (s : Svc σ) : Built σ :=
  let title := (widget.Options.lookup optionTitle).getD " Table "
  let headers : List String := ["Filesystem", "Size", "Used", "Available", "Use%", "Mount"]
  let cmd := "/bin/df -x devtmpfs -x tmpfs -x debugfs | tail -n +2"
  let cmdHeaders : String × List String :=
    match widget.Options.lookup optionCommand with
    | some c => (c, [])
    | none => (cmd, headers)
  let cmd := cmdHeaders.1
  let headers : List String :=
    match widget.Options.lookup optionHeaders with
    | some v => if 0 < v.length then strings.Split (strings.TrimSpace v) ',' else cmdHeaders.2
    | none => cmdHeaders.2
  match s.invoke (Call.Table cmd headers) (ms.service.Table cmd headers) with
  | (Except.error err, s) => Built.fail err s
  | (Except.ok data, s) => Built.ok (RenderJob.AddTable data title widget.Options) s

/-- The twelve builder methods of `HostWidget`. -/
def builders {σ : Type} [CaseTables] : List (HostWidget σ → Widget → Svc σ → Built σ) :=
  [boxUptime, boxLoad, boxProcesses, barMemory, boxCPURate, boxMemRate, boxSwapRate,
    boxNetIO, boxDiskIO, barRates, tableDisk, table]

/-- The call `errors.Errorf("can't find the widget %s", name)`. -/
def errCantFind (name : String) : GoError := ⟨"can't find the widget " ++ name⟩

/-- The method `CreateWidgets`: stores the sink in `ms`, normalizes the name
and dispatches on it; returns the updated receiver and the builder's results. -/
def CreateWidgets {σ : Type} [CaseTables] (ms : HostWidget σ) (widget : Widget) (tui : Tui) (s : Svc σ) :
    HostWidget σ × Built σ :=
  let ms : HostWidget σ := ⟨some tui, ms.service⟩
  let name := strings.Replace1 widget.Name "lh" "rh"
  if name = rhUptime then (ms, boxUptime ms widget s)
  else if name = rhLoad then (ms, boxLoad ms widget s)
  else if name = rhProcesses then (ms, boxProcesses ms widget s)
  else if name = rhBarMemory then (ms, barMemory ms widget s)
  else if name = rhBoxCPURate then (ms, boxCPURate ms widget s)
  else if name = rhBoxMemRate then (ms, boxMemRate ms widget s)
  else if name = rhBoxSwapRate then (ms, boxSwapRate ms widget s)
  else if name = rhBoxNetIO then (ms, boxNetIO ms widget s)
  else if name = rhBoxDiskIO then (ms, boxDiskIO ms widget s)
  else if name = rhBarRates then (ms, barRates ms widget s)
  else if name = rhTableDisk then (ms, tableDisk ms widget s)
  else if name = rhTable then (ms, table ms widget s)
  else (ms, Built.fail (errCantFind widget.Name) s)

/-! ## Specification vocabulary and sample collaborators -/

/-- The catalog of the twelve widget identifiers. -/
def catalog : List String :=
  [rhUptime, rhLoad, rhProcesses, rhBarMemory, rhBoxCPURate, rhBoxMemRate, rhBoxSwapRate,
    rhBoxNetIO, rhBoxDiskIO, rhBarRates, rhTableDisk, rhTable]

/-- The records a builder run added to the trace that stood at `s`. -/
def newCalls {σ : Type} (s : Svc σ) (r : Built σ) : List CallRecord :=
  r.svc.trace.drop s.trace.length

/-- A case table leaving runes outside ASCII alone, to evaluate examples. -/
instance plainCaseTables : CaseTables := ⟨fun r => r⟩

/-- A sample metrics service whose state counts the calls; every call succeeds. -/
def sampleHost : Host Nat where
  Load := fun n => (Except.ok "0.42 0.30 0.25", n + 1)
  Processes := fun n => (Except.ok "117", n + 1)
  Uptime := fun n => (Except.ok 90061, n + 1)
  CPURate := fun n => (Except.ok (Float64.finite false 42 0), n + 1)
  MemoryRate := fun n => (Except.ok (Float64.finite false 61 0), n + 1)
  SwapRate := fun n => (Except.ok (Float64.finite false 3 0), n + 1)
  NetIO := fun _ n => (Except.ok "12 / 7", n + 1)
  DiskIO := fun _ n => (Except.ok "5 / 9", n + 1)
  Memory := fun metrics _ n => (Except.ok (metrics.map fun _ => 1024), n + 1)
  Disk := fun _ _ n => (Except.ok [["/dev/sda1", "100", "40", "60", "40%", "/"]], n + 1)
  Table := fun _ _ n => (Except.ok [["row"]], n + 1)

/-- A sample metrics service on which every call fails. -/
def downHost : Host Nat where
  Load := fun n => (Except.error ⟨"ssh: handshake failed"⟩, n + 1)
  Processes := fun n => (Except.error ⟨"ssh: handshake failed"⟩, n + 1)
  Uptime := fun n => (Except.error ⟨"ssh: handshake failed"⟩, n + 1)
  CPURate := fun n => (Except.error ⟨"ssh: handshake failed"⟩, n + 1)
  MemoryRate := fun n => (Except.error ⟨"ssh: handshake failed"⟩, n + 1)
  SwapRate := fun n => (Except.error ⟨"ssh: handshake failed"⟩, n + 1)
  NetIO := fun _ n => (Except.error ⟨"ssh: handshake failed"⟩, n + 1)
  DiskIO := fun _ n => (Except.error ⟨"ssh: handshake failed"⟩, n + 1)
  Memory := fun _ _ n => (Except.error ⟨"ssh: handshake failed"⟩, n + 1)
  Disk := fun _ _ n => (Except.error ⟨"ssh: handshake failed"⟩, n + 1)
  Table := fun _ _ n => (Except.error ⟨"ssh: handshake failed"⟩, n + 1)

/-- A service that has not been called yet. -/
def freshSvc : Svc Nat := ⟨0, []⟩

/-- The shape shared by the builders: one service call, `return nil, err` on
failure, the rest of the body on success. -/
def fetch {σ α : Type} (s : Svc σ) (c : Call) (m : σ → Except GoError α × σ)
    (k : α → Svc σ → Built σ) : Built σ :=
  match s.invoke c m with
  | (Except.error err, s) => Built.fail err s
  | (Except.ok v, s) => k v s

/-- The unit a builder resolves: the option, else the default `d`. -/
def unitOf (w : Widget) (d : String) : String := (w.Options.lookup optionUnit).getD d

/-- A list-valued option as the code resolves it: the value, when present and
of non-zero length, trimmed as a whole and split at commas; else `d`. -/
def listOption (w : Widget) (key : String) (d : List String) : List String :=
  match w.Options.lookup key with
  | some v => if 0 < v.length then strings.Split (strings.TrimSpace v) ',' else d
  | none => d

/-- The metric keys the memory-bar builder resolves. -/
def memoryMetrics (w : Widget) : List String :=
  listOption w optionMetrics ["MemTotal", "MemFree", "MemAvailable"]

/-- The command the generic-table builder resolves. -/
def tableCommand (w : Widget) : String :=
  (w.Options.lookup optionCommand).getD "/bin/df -x devtmpfs -x tmpfs -x debugfs | tail -n +2"

/-- The headers of the generic-table builder before the headers option is
read: none under a custom command, the six df columns otherwise. -/
def tableBaseHeaders (w : Widget) : List String :=
  match w.Options.lookup optionCommand with
  | some _ => []
  | none => ["Filesystem", "Size", "Used", "Available", "Use%", "Mount"]

/-- A run from `s` only extends the trace, and an error recorded during the
run is the error returned, with a nil RenderJob. -/
def FailClosed {σ : Type} (s : Svc σ) (r : Built σ) : Prop :=
  (∃ l, r.svc.trace = s.trace ++ l)
    ∧ ∀ rec ∈ newCalls s r, ∀ e, rec.err = some e → r.f = none ∧ r.err = some e

namespace strings

/-- A rune list with no white space at its front. -/
def NoLeadingSpace (l : List Char) : Prop := ∀ c ∈ l.head?, unicode.IsSpace c = false

/-- A rune list with no white space at its end. -/
def NoTrailingSpace (l : List Char) : Prop := ∀ c ∈ l.getLast?, unicode.IsSpace c = false

end strings

/-- The built-in default title of each builder, as the spec lists them; the
three unit-bearing defaults carry the resolved unit in upper case. -/
def defaultTitles {σ : Type} [CaseTables] :
    List ((HostWidget σ → Widget → Svc σ → Built σ) × (Widget → String)) :=
  [(boxUptime, fun _ => " Uptime "),
    (boxLoad, fun _ => " Load "),
    (boxProcesses, fun _ => " Running processes "),
    (barMemory, fun w => " Memory (" ++ strings.ToUpper (unitOf w "kb") ++ ") "),
    (boxCPURate, fun _ => " CPU usage "),
    (boxMemRate, fun _ => " Memory usage "),
    (boxSwapRate, fun _ => " Swap usage "),
    ( boxNetIO, fun w => " Net I/O (" ++ strings.ToUpper (unitOf w "kb") ++ ") "),
    ( boxDiskIO, fun w => " Disk I/O (" ++ strings.ToUpper (unitOf w "kb") ++ ") "),
    (barRates, fun _ => " Resources usage (%) "),
    (tableDisk, fun _ => " Disks "),
    (table, fun _ => " Table ")]

/-- The option keys this subsystem reads. -/
def recognizedKeys : List String :=
  [optionTitle, optionUnit, optionMetrics, optionHeaders, optionCommand]

/-- What the final loop of `formatSeconds` appends for the runes of `s1`. -/
def spaced (s1 : List Char) : List Char :=
  s1.flatMap fun ch => if ch = 'h' ∨ ch = 'm' then [ch, ' '] else [ch]

/-- The text of a whole number `k` of seconds as `Duration.String` prints it:
hours and minutes appear once they are non-zero. -/
def hmsRunes (k : Nat) : List Char :=
  if k = 0 then ['0', 's']
  else
    (if 0 < k / 60 / 60 then fmtInt (k / 60 / 60) ++ ['h'] else [])
      ++ (if 0 < k / 60 then fmtInt (k / 60 % 60) ++ ['m'] else [])
      ++ fmtInt (k % 60) ++ ['s']

/-- The eleven builders other than the rates bar. -/
def singleFetchBuilders {σ : Type} [CaseTables] :
    List (HostWidget σ → Widget → Svc σ → Built σ) :=
  [boxUptime, boxLoad, boxProcesses, barMemory, boxCPURate, boxMemRate, boxSwapRate,
    boxNetIO, boxDiskIO, tableDisk, table]

namespace Float64

/-- The rational value of a finite float; zero for the infinities and NaN. -/
def toRat : Float64 → ℚ
  | finite neg m e => (if neg then -1 else 1) * ((m : ℚ) * (2 : ℚ) ^ e)
  | inf _ => 0
  | nan => 0

end Float64

/-- Truncation of a rational toward zero. -/
def truncRat (q : ℚ) : Int := if 0 ≤ q then ⌊q⌋ else ⌈q⌉

/-- Modelled from the spec: the operations of the rendering sink `*Tui`
(spec §6) over a sink state `τ`. Each is a method of `*Tui`: it takes its
receiver, the pointer found in `ms.tui` (`nil` as long as no `CreateWidgets`
has stored one), then its arguments, and returns its error, `nil` on success,
and the next state. -/
structure Sink (τ : Type) where
  AddTextBox : Option Tui → String → String → Options → τ → Option GoError × τ
  AddBarChart :
    Option Tui → List Int → List String → String → Options → τ → Option GoError × τ
  AddTable : Option Tui → List (List String) → String → Options → τ → Option GoError × τ

/-- A call received by the sink: the receiver it was made on and the operation
with its arguments, written with the `RenderJob` constructor of the same
name; the option map is given by the contents it had when the call was made. -/
structure SinkCall where
  receiver : Option Tui
  op : RenderJob
  deriving DecidableEq, Repr

/-- The running sink: its state and the calls it has received. -/
structure Screen (τ : Type) where
  state : τ
  calls : List SinkCall

/-- What a closure shares with its caller and reads only when it runs: the
receiver `ms`, a pointer, whose field `tui` holds the sink stored by the
latest `CreateWidgets`, and the map `widget.Options`, a reference in Go, given
here by the contents it has at that moment. -/
structure Shared (σ : Type) where
  ms : HostWidget σ
  options : Options

/-- Invoking the closure a builder returned, one branch per form of closure
body in the source: `ms.tui.AddTextBox(v, title, widget.Options)`,
`ms.tui.AddBarChart(v, labels, title, widget.Options)` and
`ms.tui.AddTable(v, title, widget.Options)`. The snapshot, the labels and the
title are the captured values. The field `ms.tui` and the option map are read
when the body runs: the closure holds the pointer `ms` and the map itself, not
a copy, so the contents recorded in the `RenderJob` when it was built are not
used. The captured slices (values, labels, rows) are taken as the values they
hold. The metrics service is not called. -/
def RenderJob.invoke {σ τ : Type} (job : RenderJob) (sink : Sink τ) (env : Shared σ)
    (svc : Svc σ) (t : Screen τ) : Option GoError × Svc σ × Screen τ :=
  match job with
  | RenderJob.AddTextBox content title _ =>
    ((sink.AddTextBox env.ms.tui content title env.options t.state).1, svc,
      ⟨(sink.AddTextBox env.ms.tui content title env.options t.state).2,
        t.calls ++ [⟨env.ms.tui, RenderJob.AddTextBox content title env.options⟩]⟩)
  | RenderJob.AddBarChart values labels title _ =>
    ((sink.AddBarChart env.ms.tui values labels title env.options t.state).1, svc,
      ⟨(sink.AddBarChart env.ms.tui values labels title env.options t.state).2,
        t.calls ++ [⟨env.ms.tui, RenderJob.AddBarChart values labels title env.options⟩]⟩)
  | RenderJob.AddTable rows title _ =>
    ((sink.AddTable env.ms.tui rows title env.options t.state).1, svc,
      ⟨(sink.AddTable env.ms.tui rows title env.options t.state).2,
        t.calls ++ [⟨env.ms.tui, RenderJob.AddTable rows title env.options⟩]⟩)

/-- Invoking the closure once for each element of `envs`, in order: the
element is the state of the shared objects at that invocation. -/
def RenderJob.invokeEach {σ τ : Type} (job : RenderJob) (sink : Sink τ) :
    List (Shared σ) → Svc σ → Screen τ → Svc σ × Screen τ
  | [], svc, t => (svc, t)
  | env :: envs, svc, t =>
    RenderJob.invokeEach job sink envs (job.invoke sink env svc t).2.1
      (job.invoke sink env svc t).2.2

/-- The sink operation of `job` with the option map holding `now`. -/
def RenderJob.withOptions : RenderJob → Options → RenderJob
  | RenderJob.AddTextBox content title _, now => RenderJob.AddTextBox content title now
  | RenderJob.AddBarChart values labels title _, now =>
    RenderJob.AddBarChart values labels title now
  | RenderJob.AddTable rows title _, now => RenderJob.AddTable rows title now

/-- The call `job` sends when it runs with the shared objects as in `env`. -/
def RenderJob.callIn {σ : Type} (job : RenderJob) (env : Shared σ) : SinkCall :=
  ⟨env.ms.tui, job.withOptions env.options⟩

/-- The option map recorded in a `RenderJob`: its contents when the closure
was made. -/
def RenderJob.options : RenderJob → Options
  | RenderJob.AddTextBox _ _ o => o
  | RenderJob.AddBarChart _ _ _ o => o
  | RenderJob.AddTable _ _ o => o

/-- Continue with `k` on the value of a successful call; nothing on an error. -/
def thenOk {α : Type} (r : Except GoError α) (k : α → Option RenderJob) : Option RenderJob :=
  match r with
  | Except.ok v => k v
  | Except.error _ => none

/-- For each builder, the RenderJob it is to return from a service in state
`s`: the sink call with the title resolved from the options, the snapshot the
service returns at `s`, and the widget's options as they are. -/
def expectedJobs {σ : Type} [CaseTables] :
    List ((HostWidget σ → Widget → Svc σ → Built σ)
      × (HostWidget σ → Widget → Svc σ → Option RenderJob)) :=
  [(boxUptime, fun ms w s => thenOk (ms.service.Uptime s.state).1 fun uptime =>
      some (RenderJob.AddTextBox (formatSeconds uptime)
        ((w.Options.lookup optionTitle).getD " Uptime ") w.Options)),
    (boxLoad, fun ms w s => thenOk (ms.service.Load s.state).1 fun load =>
      some (RenderJob.AddTextBox load
        ((w.Options.lookup optionTitle).getD " Load ") w.Options)),
    (boxProcesses, fun ms w s => thenOk (ms.service.Processes s.state).1 fun procs =>
      some (RenderJob.AddTextBox procs
        ((w.Options.lookup optionTitle).getD " Running processes ") w.Options)),
    (barMemory, fun ms w s =>
      thenOk (ms.service.Memory (memoryMetrics w) (unitOf w "kb") s.state).1 fun mem =>
        some (RenderJob.AddBarChart mem (listOption w optionHeaders (memoryMetrics w))
          ((w.Options.lookup optionTitle).getD
            (" Memory (" ++ strings.ToUpper (unitOf w "kb") ++ ") ")) w.Options)),
    (boxCPURate, fun ms w s => thenOk (ms.service.CPURate s.state).1 fun rate =>
      some (RenderJob.AddTextBox (strconv.FormatFloat_f2 rate ++ " %")
        ((w.Options.lookup optionTitle).getD " CPU usage ") w.Options)),
    (boxMemRate, fun ms w s => thenOk (ms.service.MemoryRate s.state).1 fun rate =>
      some (RenderJob.AddTextBox (strconv.FormatFloat_f2 rate ++ " %")
        ((w.Options.lookup optionTitle).getD " Memory usage ") w.Options)),
    (boxSwapRate, fun ms w s => thenOk (ms.service.SwapRate s.state).1 fun rate =>
      some (RenderJob.AddTextBox (strconv.FormatFloat_f2 rate ++ " %")
        ((w.Options.lookup optionTitle).getD " Swap usage ") w.Options)),
    ( boxNetIO, fun ms w s =>
      thenOk ( Host.NetIO ms.service (unitOf w "kb") s.state).1 fun v =>
        some (RenderJob.AddTextBox v
          ((w.Options.lookup optionTitle).getD
            (" Net I/O (" ++ strings.ToUpper (unitOf w "kb") ++ ") ")) w.Options)),
    ( boxDiskIO, fun ms w s =>
      thenOk ( Host.DiskIO ms.service (unitOf w "kb") s.state).1 fun v =>
        some (RenderJob.AddTextBox v
          ((w.Options.lookup optionTitle).getD
            (" Disk I/O (" ++ strings.ToUpper (unitOf w "kb") ++ ") ")) w.Options)),
    (barRates, fun ms w s => thenOk (ms.service.SwapRate s.state).1 fun swapRate =>
      thenOk (ms.service.CPURate (ms.service.SwapRate s.state).2).1 fun cpuRate =>
        thenOk (ms.service.MemoryRate
            (ms.service.CPURate (ms.service.SwapRate s.state).2).2).1 fun memoryRate =>
          some (RenderJob.AddBarChart
            [Float64.toInt cpuRate, Float64.toInt memoryRate, Float64.toInt swapRate]
            ["CPU", "Memory", "Swap"]
            ((w.Options.lookup optionTitle).getD " Resources usage (%) ") w.Options)),
    (tableDisk, fun ms w s =>
      thenOk (ms.service.Disk ["Filesystem", "Size", "Used", "Available", "Use%", "Mount"]
          (unitOf w "gb") s.state).1 fun data =>
        some (RenderJob.AddTable data
          ((w.Options.lookup optionTitle).getD " Disks ") w.Options)),
    (table, fun ms w s =>
      thenOk (ms.service.Table (tableCommand w)
          (listOption w optionHeaders (tableBaseHeaders w)) s.state).1 fun data =>
        some (RenderJob.AddTable data
          ((w.Options.lookup optionTitle).getD " Table ") w.Options))]

/-- A sample sink that counts the operations it receives and never fails. -/
def sampleSink : Sink Nat where
  AddTextBox := fun _ _ _ _ n => (none, n + 1)
  AddBarChart := fun _ _ _ _ _ n => (none, n + 1)
  AddTable := fun _ _ _ _ n => (none, n + 1)

/-- A text made of one or more digits, a decimal point, exactly two digits,
one space and the percent sign, the digits being the numeral of `n`
hundredths. -/
def PercentText (content : String) (n : Nat) : Prop :=
  ∃ (ds : List Char) (d1 d2 : Char),
    content.data = ds ++ ['.', d1, d2, ' ', '%']
      ∧ ds ≠ [] ∧ (∀ c ∈ ds, c.isDigit = true) ∧ d1.isDigit = true ∧ d2.isDigit = true
      ∧ ds = (Nat.repr (n / 100)).data
      ∧ d1 = Char.ofNat (n % 100 / 10 + 48) ∧ d2 = Char.ofNat (n % 10 + 48)

/-- A text made of one or more digits, a decimal point, exactly two digits,
one space and the percent sign. -/
def PercentPattern (content : String) : Prop :=
  ∃ (ds : List Char) (d1 d2 : Char),
    content.data = ds ++ ['.', d1, d2, ' ', '%']
      ∧ ds ≠ [] ∧ (∀ c ∈ ds, c.isDigit = true) ∧ d1.isDigit = true ∧ d2.isDigit = true

/-- The text of the rate `(-1)^neg * m * 2^e`: a minus sign when the sign bit
is set, then the hundredths of the magnitude as a `PercentText`. -/
def RateText (neg : Bool) (m : Nat) (e : Int) (content : String) : Prop :=
  ∃ body : String,
    content.data = (if neg then ['-'] else []) ++ body.data
      ∧ PercentText body (Float64.hundredths m e)

/-- The sample service with a CPU rate of negative zero. -/
def negZeroHost : Host Nat :=
  { sampleHost with CPURate := fun n => (Except.ok (Float64.finite true 0 0), n + 1) }

open time in
/-- The variant of `formatSeconds` with a single day-extraction loop: while
the remaining duration exceeds 24 hours, count a day and subtract 24 hours;
the rest is as in `formatSeconds`. -/
def formatSecondsOneLoop (dur : Int) : String :=
  let dur := dur - dur.tmod Second
  match dayLoop 0 dur with
  | (days, dur) =>
    let s1 := Duration.String dur
    let s2 : String := if 0 < days then ⟨fmtInt days ++ ['d', ' ']⟩ else ""
    spaceUnits s2 s1

/-- The local-host alias of a remote-host identifier: its leading "rh"
replaced by "lh". -/
def lhAlias (k : String) : String := ⟨'l' :: 'h' :: k.data.drop 2⟩

/-- The 24 kind strings: the catalog identifiers and their aliases. -/
def acceptedKinds : List String := catalog ++ catalog.map lhAlias

/-- All rune lists obtained from `t` by writing "lh" over one occurrence of
"rh". -/
def rhSpots : List Char → List (List Char)
  | [] => []
  | c :: cs =>
    (if ['r', 'h'].isPrefixOf (c :: cs) then [['l', 'h'] ++ (c :: cs).drop 2] else [])
      ++ (rhSpots cs).map (fun l => c :: l)

/-! # Theorems -/

/-! ## Dispatch -/

/-- C1: when the normalized kind (first "lh" replaced by "rh") is not in the
catalog, CreateWidgets returns no RenderJob and the error "can't find the
widget " followed by the original kind; the service is left as it was, so no
builder ran and no metrics call was made. -/
theorem createWidgets_unknown_kind {σ : Type} [CaseTables] (ms : HostWidget σ) (widget : Widget)
    (tui : Tui) (s : Svc σ)
    (h : strings.Replace1 widget.Name "lh" "rh" ∉ catalog) :
    (CreateWidgets ms widget tui s).2.f = none
      ∧ (CreateWidgets ms widget tui s).2.err
          = some ⟨"can't find the widget " ++ widget.Name⟩
      ∧ (CreateWidgets ms widget tui s).2.svc.trace = s.trace
      ∧ (CreateWidgets ms widget tui s).2.svc.state = s.state := by
  simp only [catalog, List.mem_cons, List.mem_singleton, not_or, List.not_mem_nil,
    or_false] at h
  obtain ⟨h1, h2, h3, h4, h5, h6, h7, h8, h9, h10, h11, h12⟩ := h
  simp [CreateWidgets, h1, h2, h3, h4, h5, h6, h7, h8, h9, h10, h11, h12, Built.fail,
    errCantFind]

theorem createWidgets_unknown_kind_witness :
    strings.Replace1 "lh.box_weather" "lh" "rh" ∉ catalog
      ∧ (CreateWidgets ⟨none, sampleHost⟩ ⟨"lh.box_weather", [("title", "x")]⟩ ⟨7⟩
          freshSvc).2.f = none
      ∧ (CreateWidgets ⟨none, sampleHost⟩ ⟨"lh.box_weather", [("title", "x")]⟩ ⟨7⟩
          freshSvc).2.err = some ⟨"can't find the widget lh.box_weather"⟩
      ∧ (CreateWidgets ⟨none, sampleHost⟩ ⟨"lh.box_weather", [("title", "x")]⟩ ⟨7⟩
          freshSvc).2.svc.trace = [] :=
  have h : strings.Replace1 "lh.box_weather" "lh" "rh" ∉ catalog := by decide
  have t := createWidgets_unknown_kind ⟨none, sampleHost⟩
    ⟨"lh.box_weather", [("title", "x")]⟩ ⟨7⟩ freshSvc h
  ⟨h, t.1, t.2.1, t.2.2.1⟩

/-- Two strings with the same front are equal when their rests are. -/
theorem append_rest_inj (a r r' : String) (h : a ++ r = a ++ r') : r = r' := by
  have hd := congrArg String.data h
  simp only [String.data_append] at hd
  exact String.ext (List.append_cancel_left hd)

/-- C2: for every catalog identifier "rh." ++ rest and every option set,
service and sink, CreateWidgets on the identifier and on its alias
"lh." ++ rest run the same builder and return the same results. -/
theorem createWidgets_alias {σ : Type} [CaseTables] (ms : HostWidget σ) (rest : String) (opts : Options)
    (tui : Tui) (s : Svc σ) (h : "rh." ++ rest ∈ catalog) :
    CreateWidgets ms ⟨"lh." ++ rest, opts⟩ tui s = CreateWidgets ms ⟨"rh." ++ rest, opts⟩ tui s
      ∧ ∃ b ∈ builders,
          CreateWidgets ms ⟨"rh." ++ rest, opts⟩ tui s
              = (⟨some tui, ms.service⟩, b ⟨some tui, ms.service⟩ ⟨"rh." ++ rest, opts⟩ s)
            ∧ CreateWidgets ms ⟨"lh." ++ rest, opts⟩ tui s
              = (⟨some tui, ms.service⟩, b ⟨some tui, ms.service⟩ ⟨"lh." ++ rest, opts⟩ s) := by
  have hr : rest ∈ ["box_uptime", "box_load", "box_processes", "bar_memory", "box_cpu_rate",
      "box_memory_rate", "box_swap_rate", "box_net_io", "box_disk_io", "bar_rates",
      "table_disk", "table"] := by
    simp only [catalog, List.mem_cons, List.mem_singleton, List.not_mem_nil, or_false] at h ⊢
    rcases h with h | h | h | h | h | h | h | h | h | h | h | h
    · exact Or.inl (append_rest_inj "rh." rest "box_uptime" h)
    · exact Or.inr (Or.inl (append_rest_inj "rh." rest "box_load" h))
    · exact Or.inr (Or.inr (Or.inl (append_rest_inj "rh." rest "box_processes" h)))
    · exact Or.inr (Or.inr (Or.inr (Or.inl (append_rest_inj "rh." rest "bar_memory" h))))
    · exact Or.inr (Or.inr (Or.inr (Or.inr (Or.inl
        (append_rest_inj "rh." rest "box_cpu_rate" h)))))
    · exact Or.inr (Or.inr (Or.inr (Or.inr (Or.inr (Or.inl
        (append_rest_inj "rh." rest "box_memory_rate" h))))))
    · exact Or.inr (Or.inr (Or.inr (Or.inr (Or.inr (Or.inr (Or.inl
        (append_rest_inj "rh." rest "box_swap_rate" h)))))))
    · exact Or.inr (Or.inr (Or.inr (Or.inr (Or.inr (Or.inr (Or.inr (Or.inl
        (append_rest_inj "rh." rest "box_net_io" h))))))))
    · exact Or.inr (Or.inr (Or.inr (Or.inr (Or.inr (Or.inr (Or.inr (Or.inr (Or.inl
        (append_rest_inj "rh." rest "box_disk_io" h)))))))))
    · exact Or.inr (Or.inr (Or.inr (Or.inr (Or.inr (Or.inr (Or.inr (Or.inr (Or.inr (Or.inl
        (append_rest_inj "rh." rest "bar_rates" h))))))))))
    · exact Or.inr (Or.inr (Or.inr (Or.inr (Or.inr (Or.inr (Or.inr (Or.inr (Or.inr (Or.inr
        (Or.inl (append_rest_inj "rh." rest "table_disk" h)))))))))))
    · exact Or.inr (Or.inr (Or.inr (Or.inr (Or.inr (Or.inr (Or.inr (Or.inr (Or.inr (Or.inr
        (Or.inr (append_rest_inj "rh." rest "table" h)))))))))))
  simp only [List.mem_cons, List.mem_singleton, List.not_mem_nil, or_false] at hr
  rcases hr with rfl | rfl | rfl | rfl | rfl | rfl | rfl | rfl | rfl | rfl | rfl | rfl
  · exact ⟨rfl, boxUptime, by simp [builders], rfl, rfl⟩
  · exact ⟨rfl, boxLoad, by simp [builders], rfl, rfl⟩
  · exact ⟨rfl, boxProcesses, by simp [builders], rfl, rfl⟩
  · exact ⟨rfl, barMemory, by simp [builders], rfl, rfl⟩
  · exact ⟨rfl, boxCPURate, by simp [builders], rfl, rfl⟩
  · exact ⟨rfl, boxMemRate, by simp [builders], rfl, rfl⟩
  · exact ⟨rfl, boxSwapRate, by simp [builders], rfl, rfl⟩
  · exact ⟨rfl, boxNetIO, by simp [builders], rfl, rfl⟩
  · exact ⟨rfl, boxDiskIO, by simp [builders], rfl, rfl⟩
  · exact ⟨rfl, barRates, by simp [builders], rfl, rfl⟩
  · exact ⟨rfl, tableDisk, by simp [builders], rfl, rfl⟩
  · exact ⟨rfl, table, by simp [builders], rfl, rfl⟩

theorem createWidgets_alias_witness :
    "rh." ++ "box_load" ∈ catalog
      ∧ CreateWidgets ⟨none, sampleHost⟩ ⟨"lh." ++ "box_load", [("title", "L")]⟩ ⟨1⟩ freshSvc
          = CreateWidgets ⟨none, sampleHost⟩ ⟨"rh." ++ "box_load", [("title", "L")]⟩ ⟨1⟩
              freshSvc :=
  have h : "rh." ++ "box_load" ∈ catalog := by decide
  ⟨h, (createWidgets_alias ⟨none, sampleHost⟩ "box_load" [("title", "L")] ⟨1⟩ freshSvc h).1⟩

/-! ## Fetch failure -/

theorem fetch_error {σ α : Type} (s : Svc σ) (c : Call) (m : σ → Except GoError α × σ)
    (k : α → Svc σ → Built σ) (e : GoError) (h : (m s.state).1 = Except.error e) :
    fetch s c m k = Built.fail e ⟨(m s.state).2, s.trace ++ [⟨c, some e⟩]⟩ := by
  simp [fetch, Svc.invoke, h, errOf]

theorem fetch_ok {σ α : Type} (s : Svc σ) (c : Call) (m : σ → Except GoError α × σ)
    (k : α → Svc σ → Built σ) (v : α) (h : (m s.state).1 = Except.ok v) :
    fetch s c m k = k v ⟨(m s.state).2, s.trace ++ [⟨c, none⟩]⟩ := by
  simp [fetch, Svc.invoke, h, errOf]

theorem fetch_eq {σ α : Type} (s : Svc σ) (c : Call) (m : σ → Except GoError α × σ)
    (k : α → Svc σ → Built σ) (r : Built σ)
    (herr : ∀ e s', s.invoke c m = (Except.error e, s') → r = Built.fail e s')
    (hok : ∀ v s', s.invoke c m = (Except.ok v, s') → r = k v s') :
    r = fetch s c m k := by
  unfold fetch
  split
  · rename_i h; exact herr _ _ h
  · rename_i h; exact hok _ _ h

/-! The builders in fetch shape. -/

theorem boxUptime_shape {σ : Type} (ms : HostWidget σ) (w : Widget) (s : Svc σ) :
    boxUptime ms w s = fetch s Call.Uptime ms.service.Uptime (fun uptime s =>
      Built.ok (RenderJob.AddTextBox (formatSeconds uptime)
        ((w.Options.lookup optionTitle).getD " Uptime ") w.Options) s) := by
  apply fetch_eq <;> intro v s' h <;> simp only [boxUptime, h]

theorem boxLoad_shape {σ : Type} (ms : HostWidget σ) (w : Widget) (s : Svc σ) :
    boxLoad ms w s = fetch s Call.Load ms.service.Load (fun load s =>
      Built.ok (RenderJob.AddTextBox load
        ((w.Options.lookup optionTitle).getD " Load ") w.Options) s) := by
  apply fetch_eq <;> intro v s' h <;> simp only [boxLoad, h]

theorem boxProcesses_shape {σ : Type} (ms : HostWidget σ) (w : Widget) (s : Svc σ) :
    boxProcesses ms w s = fetch s Call.Processes ms.service.Processes (fun procs s =>
      Built.ok (RenderJob.AddTextBox procs
        ((w.Options.lookup optionTitle).getD " Running processes ") w.Options) s) := by
  apply fetch_eq <;> intro v s' h <;> simp only [boxProcesses, h]

theorem boxCPURate_shape {σ : Type} (ms : HostWidget σ) (w : Widget) (s : Svc σ) :
    boxCPURate ms w s = fetch s Call.CPURate ms.service.CPURate (fun rate s =>
      Built.ok (RenderJob.AddTextBox (strconv.FormatFloat_f2 rate ++ " %")
        ((w.Options.lookup optionTitle).getD " CPU usage ") w.Options) s) := by
  apply fetch_eq <;> intro v s' h <;> simp only [boxCPURate, h]

theorem boxMemRate_shape {σ : Type} (ms : HostWidget σ) (w : Widget) (s : Svc σ) :
    boxMemRate ms w s = fetch s Call.MemoryRate ms.service.MemoryRate (fun rate s =>
      Built.ok (RenderJob.AddTextBox (strconv.FormatFloat_f2 rate ++ " %")
        ((w.Options.lookup optionTitle).getD " Memory usage ") w.Options) s) := by
  apply fetch_eq <;> intro v s' h <;> simp only [boxMemRate, h]

theorem boxSwapRate_shape {σ : Type} (ms : HostWidget σ) (w : Widget) (s : Svc σ) :
    boxSwapRate ms w s = fetch s Call.SwapRate ms.service.SwapRate (fun rate s =>
      Built.ok (RenderJob.AddTextBox (strconv.FormatFloat_f2 rate ++ " %")
        ((w.Options.lookup optionTitle).getD " Swap usage ") w.Options) s) := by
  apply fetch_eq <;> intro v s' h <;> simp only [boxSwapRate, h]

theorem barRates_shape {σ : Type} (ms : HostWidget σ) (w : Widget) (s : Svc σ) :
    barRates ms w s = fetch s Call.SwapRate ms.service.SwapRate (fun swapRate s =>
      fetch s Call.CPURate ms.service.CPURate (fun cpuRate s =>
        fetch s Call.MemoryRate ms.service.MemoryRate (fun memoryRate s =>
          Built.ok (RenderJob.AddBarChart
            [Float64.toInt cpuRate, Float64.toInt memoryRate, Float64.toInt swapRate]
            ["CPU", "Memory", "Swap"]
            ((w.Options.lookup optionTitle).getD " Resources usage (%) ") w.Options) s))) := by
  apply fetch_eq
  · intro e s1 h1
    simp only [barRates, h1]
  · intro swapRate s1 h1
    apply fetch_eq
    · intro e s2 h2
      simp only [barRates, h1, h2]
    · intro cpuRate s2 h2
      apply fetch_eq
      · intro e s3 h3
        simp only [barRates, h1, h2, h3]
      · intro memoryRate s3 h3
        simp only [barRates, h1, h2, h3]

theorem boxNetIO_shape {σ : Type} [CaseTables] (ms : HostWidget σ) (w : Widget) (s : Svc σ) :
    boxNetIO ms w s
      = fetch s ( Call.NetIO (unitOf w "kb")) ( Host.NetIO ms.service (unitOf w "kb"))
          (fun v s => Built.ok (RenderJob.AddTextBox v
            ((w.Options.lookup optionTitle).getD
              (" Net I/O (" ++ strings.ToUpper (unitOf w "kb") ++ ") ")) w.Options) s) := by
  apply fetch_eq <;> intro v s' h <;> simp only [unitOf] at h <;>
    simp only [h, unitOf, boxNetIO]

theorem boxDiskIO_shape {σ : Type} [CaseTables] (ms : HostWidget σ) (w : Widget) (s : Svc σ) :
    boxDiskIO ms w s
      = fetch s ( Call.DiskIO (unitOf w "kb")) ( Host.DiskIO ms.service (unitOf w "kb"))
          (fun v s => Built.ok (RenderJob.AddTextBox v
            ((w.Options.lookup optionTitle).getD
              (" Disk I/O (" ++ strings.ToUpper (unitOf w "kb") ++ ") ")) w.Options) s) := by
  apply fetch_eq <;> intro v s' h <;> simp only [unitOf] at h <;>
    simp only [h, unitOf, boxDiskIO]

theorem barMemory_shape {σ : Type} [CaseTables] (ms : HostWidget σ) (w : Widget) (s : Svc σ) :
    barMemory ms w s
      = fetch s (Call.Memory (memoryMetrics w) (unitOf w "kb"))
          (ms.service.Memory (memoryMetrics w) (unitOf w "kb"))
          (fun mem s => Built.ok (RenderJob.AddBarChart mem
            (listOption w optionHeaders (memoryMetrics w))
            ((w.Options.lookup optionTitle).getD
              (" Memory (" ++ strings.ToUpper (unitOf w "kb") ++ ") ")) w.Options) s) := by
  apply fetch_eq <;> intro v s' h <;> simp only [unitOf, memoryMetrics, listOption] at h <;>
    cases hm : w.Options.lookup optionMetrics <;>
    cases hh : w.Options.lookup optionHeaders <;>
    simp only [hm] at h <;>
    simp only [barMemory, hm, hh, h, unitOf, memoryMetrics, listOption]

theorem tableDisk_shape {σ : Type} (ms : HostWidget σ) (w : Widget) (s : Svc σ) :
    tableDisk ms w s
      = fetch s
          (Call.Disk ["Filesystem", "Size", "Used", "Available", "Use%", "Mount"]
            (unitOf w "gb"))
          (ms.service.Disk ["Filesystem", "Size", "Used", "Available", "Use%", "Mount"]
            (unitOf w "gb"))
          (fun data s => Built.ok (RenderJob.AddTable data
            ((w.Options.lookup optionTitle).getD " Disks ") w.Options) s) := by
  apply fetch_eq <;> intro v s' h <;> simp only [unitOf] at h <;>
    simp only [tableDisk, h, unitOf]

theorem table_shape {σ : Type} (ms : HostWidget σ) (w : Widget) (s : Svc σ) :
    table ms w s
      = fetch s (Call.Table (tableCommand w) (listOption w optionHeaders (tableBaseHeaders w)))
          (ms.service.Table (tableCommand w) (listOption w optionHeaders (tableBaseHeaders w)))
          (fun data s => Built.ok (RenderJob.AddTable data
            ((w.Options.lookup optionTitle).getD " Table ") w.Options) s) := by
  apply fetch_eq <;> intro v s' h <;>
    simp only [tableCommand, tableBaseHeaders, listOption] at h <;>
    cases hc : w.Options.lookup optionCommand <;>
    cases hh : w.Options.lookup optionHeaders <;>
    simp only [hc, hh, Option.getD] at h <;>
    simp only [table, hc, hh, h, tableCommand, tableBaseHeaders, listOption, Option.getD]

theorem failClosed_ok {σ : Type} (s : Svc σ) (job : RenderJob) :
    FailClosed s (Built.ok job s) := by
  refine ⟨⟨[], by simp [Built.ok]⟩, ?_⟩
  intro rec hrec
  simp [newCalls, Built.ok] at hrec

theorem failClosed_fetch {σ α : Type} (s : Svc σ) (c : Call)
    (m : σ → Except GoError α × σ) (k : α → Svc σ → Built σ)
    (hk : ∀ v s', FailClosed s' (k v s')) : FailClosed s (fetch s c m k) := by
  rcases h : (m s.state).1 with e | v
  · rw [fetch_error s c m k e h]
    refine ⟨⟨[⟨c, some e⟩], rfl⟩, ?_⟩
    intro rec hrec e' he'
    simp [newCalls, Built.fail] at hrec
    subst hrec
    simp at he'
    simp [Built.fail, he']
  · rw [fetch_ok s c m k v h]
    obtain ⟨⟨l, hl⟩, hrest⟩ := hk v ⟨(m s.state).2, s.trace ++ [⟨c, none⟩]⟩
    refine ⟨⟨⟨c, none⟩ :: l, by simp [hl]⟩, ?_⟩
    intro rec hrec e' he'
    have hmem : rec = ⟨c, none⟩ ∨ rec ∈ l := by
      simpa [newCalls, hl] using hrec
    rcases hmem with rfl | hmem
    · simp at he'
    · exact hrest rec (by simp [newCalls, hl, hmem]) e' he'

/-- C3: for each of the twelve builders, if a metrics-service call made
during the run returned an error, the builder returns that error and a nil
RenderJob, so no sink operation can be reached. -/
theorem builder_fetch_failure {σ : Type} [CaseTables]
    (b : HostWidget σ → Widget → Svc σ → Built σ) (hb : b ∈ builders)
    (ms : HostWidget σ) (widget : Widget) (s : Svc σ) (r : CallRecord) (e : GoError)
    (hr : r ∈ newCalls s (b ms widget s)) (he : r.err = some e) :
    (b ms widget s).f = none ∧ (b ms widget s).err = some e := by
  have key : FailClosed s (b ms widget s) := by
    simp only [builders, List.mem_cons, List.mem_singleton, List.not_mem_nil, or_false] at hb
    rcases hb with rfl | rfl | rfl | rfl | rfl | rfl | rfl | rfl | rfl | rfl | rfl | rfl
    · rw [boxUptime_shape]
      exact failClosed_fetch s _ _ _ (fun _ _ => failClosed_ok _ _)
    · rw [boxLoad_shape]
      exact failClosed_fetch s _ _ _ (fun _ _ => failClosed_ok _ _)
    · rw [boxProcesses_shape]
      exact failClosed_fetch s _ _ _ (fun _ _ => failClosed_ok _ _)
    · rw [barMemory_shape]
      exact failClosed_fetch s _ _ _ (fun _ _ => failClosed_ok _ _)
    · rw [boxCPURate_shape]
      exact failClosed_fetch s _ _ _ (fun _ _ => failClosed_ok _ _)
    · rw [boxMemRate_shape]
      exact failClosed_fetch s _ _ _ (fun _ _ => failClosed_ok _ _)
    · rw [boxSwapRate_shape]
      exact failClosed_fetch s _ _ _ (fun _ _ => failClosed_ok _ _)
    · rw [boxNetIO_shape]
      exact failClosed_fetch s _ _ _ (fun _ _ => failClosed_ok _ _)
    · rw [boxDiskIO_shape]
      exact failClosed_fetch s _ _ _ (fun _ _ => failClosed_ok _ _)
    · rw [barRates_shape]
      exact failClosed_fetch s _ _ _ (fun _ _ => failClosed_fetch _ _ _ _
        (fun _ _ => failClosed_fetch _ _ _ _ (fun _ _ => failClosed_ok _ _)))
    · rw [tableDisk_shape]
      exact failClosed_fetch s _ _ _ (fun _ _ => failClosed_ok _ _)
    · rw [table_shape]
      exact failClosed_fetch s _ _ _ (fun _ _ => failClosed_ok _ _)
  exact key.2 r hr e he

theorem builder_fetch_failure_witness :
    barRates ∈ (builders : List (HostWidget Nat → Widget → Svc Nat → Built Nat))
      ∧ (⟨Call.SwapRate, some ⟨"ssh: handshake failed"⟩⟩ : CallRecord)
          ∈ newCalls freshSvc (barRates ⟨none, downHost⟩ ⟨"rh.bar_rates", []⟩ freshSvc)
      ∧ (barRates ⟨none, downHost⟩ ⟨"rh.bar_rates", []⟩ freshSvc).f = none
      ∧ (barRates ⟨none, downHost⟩ ⟨"rh.bar_rates", []⟩ freshSvc).err
          = some ⟨"ssh: handshake failed"⟩ :=
  have hb : barRates ∈ (builders : List (HostWidget Nat → Widget → Svc Nat → Built Nat)) := by
    simp [builders]
  have hr : (⟨Call.SwapRate, some ⟨"ssh: handshake failed"⟩⟩ : CallRecord)
      ∈ newCalls freshSvc (barRates ⟨none, downHost⟩ ⟨"rh.bar_rates", []⟩ freshSvc) := by
    decide
  ⟨hb, hr, builder_fetch_failure barRates hb ⟨none, downHost⟩ ⟨"rh.bar_rates", []⟩ freshSvc
    ⟨Call.SwapRate, some ⟨"ssh: handshake failed"⟩⟩ ⟨"ssh: handshake failed"⟩ hr rfl⟩

namespace strings

theorem splitRunes_ne_nil (sep : Char) (l : List Char) : splitRunes sep l ≠ [] := by
  cases l with
  | nil => simp [splitRunes]
  | cons c cs =>
    unfold splitRunes
    split
    · simp
    · split <;> simp

theorem intercalate_cons_cons {α : Type} (s x y : List α) (ys : List (List α)) :
    s.intercalate (x :: y :: ys) = x ++ s ++ s.intercalate (y :: ys) := by
  simp [List.intercalate, List.intersperse]

theorem intercalate_splitRunes (sep : Char) (l : List Char) :
    [sep].intercalate (splitRunes sep l) = l := by
  induction l with
  | nil => simp [splitRunes, List.intercalate]
  | cons c cs ih =>
    unfold splitRunes
    by_cases hc : c = sep
    · rw [if_pos hc]
      rcases hs : splitRunes sep cs with _ | ⟨p, ps⟩
      · exact absurd hs (splitRunes_ne_nil sep cs)
      · rw [intercalate_cons_cons, ← hs, ih, hc]; rfl
    · rw [if_neg hc]
      rcases hs : splitRunes sep cs with _ | ⟨p, ps⟩
      · exact absurd hs (splitRunes_ne_nil sep cs)
      · rw [hs] at ih
        dsimp only
        cases ps with
        | nil =>
          simp [List.intercalate] at ih ⊢
          exact ih
        | cons q qs =>
          rw [intercalate_cons_cons] at ih ⊢
          simp [← ih]

theorem not_mem_of_mem_splitRunes (sep : Char) (l p : List Char)
    (hp : p ∈ splitRunes sep l) : sep ∉ p := by
  induction l generalizing p with
  | nil => simp [splitRunes] at hp; simp [hp]
  | cons c cs ih =>
    unfold splitRunes at hp
    by_cases hc : c = sep
    · rw [if_pos hc] at hp
      rcases List.mem_cons.1 hp with rfl | h
      · simp
      · exact ih p h
    · rw [if_neg hc] at hp
      rcases hs : splitRunes sep cs with _ | ⟨q, qs⟩
      · exact absurd hs (splitRunes_ne_nil sep cs)
      · rw [hs] at hp ih
        rcases List.mem_cons.1 hp with rfl | h
        · have := ih q (List.mem_cons_self _ _)
          simp [this, Ne.symm hc]
        · exact ih p (List.mem_cons_of_mem _ h)

/-- The first piece is a front part of the list. -/
theorem head_splitRunes_prefix (sep : Char) (l : List Char) :
    ∀ p ∈ (splitRunes sep l).head?, p <+: l := by
  intro p hp
  cases l with
  | nil => simp [splitRunes] at hp; simp [← hp]
  | cons c cs =>
    unfold splitRunes at hp
    by_cases hc : c = sep
    · rw [if_pos hc] at hp
      simp only [List.head?_cons, Option.mem_def, Option.some.injEq] at hp
      subst hp
      exact List.nil_prefix
    · rw [if_neg hc] at hp
      rcases hs : splitRunes sep cs with _ | ⟨q, qs⟩
      · exact absurd hs (splitRunes_ne_nil sep cs)
      · rw [hs] at hp
        simp only [List.head?_cons, Option.mem_def, Option.some.injEq] at hp
        subst hp
        have := head_splitRunes_prefix sep cs q (by simp [hs])
        exact (List.prefix_cons_inj c).2 this

/-- The last piece is an end part of the list. -/
theorem getLast_splitRunes_suffix (sep : Char) (l : List Char) :
    ∀ p ∈ (splitRunes sep l).getLast?, p <:+ l := by
  intro p hp
  induction l generalizing p with
  | nil => simp [splitRunes] at hp; simp [← hp]
  | cons c cs ih =>
    unfold splitRunes at hp
    rcases hs : splitRunes sep cs with _ | ⟨q, qs⟩
    · exact absurd hs (splitRunes_ne_nil sep cs)
    · rw [hs] at hp ih
      by_cases hc : c = sep
      · rw [if_pos hc] at hp
        rw [List.getLast?_cons_cons] at hp
        exact List.suffix_cons_iff.2 (Or.inr (ih p hp))
      · rw [if_neg hc] at hp
        dsimp only at hp
        cases qs with
        | nil =>
          simp only [List.getLast?_singleton, Option.mem_def, Option.some.injEq] at hp
          subst hp
          have hq := intercalate_splitRunes sep cs
          rw [hs] at hq
          have hq' : q = cs := by simpa [List.intercalate] using hq
          rw [hq']
        | cons r rs =>
          rw [List.getLast?_cons_cons] at hp
          rw [List.getLast?_cons_cons] at ih
          exact List.suffix_cons_iff.2 (Or.inr (ih p hp))

theorem noLeadingSpace_dropWhile (l : List Char) :
    NoLeadingSpace (l.dropWhile unicode.IsSpace) := by
  intro c hc
  have := List.head?_dropWhile_not unicode.IsSpace l
  rw [Option.mem_def] at hc
  rw [hc] at this
  simpa using this

theorem noLeadingSpace_of_prefix (l m : List Char) (h : l <+: m) (hm : NoLeadingSpace m) :
    NoLeadingSpace l := by
  intro c hc
  rcases l with _ | ⟨a, l⟩
  · simp at hc
  · obtain ⟨t, rfl⟩ := h
    exact hm c (by simpa using hc)

theorem noTrailingSpace_of_suffix (l m : List Char) (h : l <:+ m) (hm : NoTrailingSpace m) :
    NoTrailingSpace l := by
  intro c hc
  by_cases hl : l = []
  · subst hl; simp at hc
  · obtain ⟨t, rfl⟩ := h
    apply hm c
    rw [Option.mem_def] at hc ⊢
    rw [List.getLast?_append_of_ne_nil _ hl]
    exact hc

theorem noTrailingSpace_rdropWhile (l : List Char) :
    NoTrailingSpace (l.rdropWhile unicode.IsSpace) := by
  intro c hc
  by_cases hl : l.rdropWhile unicode.IsSpace = []
  · rw [hl] at hc; simp at hc
  · have := List.rdropWhile_last_not unicode.IsSpace l hl
    rw [Option.mem_def, List.getLast?_eq_getLast _ hl] at hc
    simp only [Option.some.injEq] at hc
    rw [hc] at this
    simpa using this

theorem trimSpace_noLeadingSpace (v : String) : NoLeadingSpace (TrimSpace v).data :=
  noLeadingSpace_of_prefix _ _ (List.rdropWhile_prefix _ _) (noLeadingSpace_dropWhile v.data)

theorem trimSpace_noTrailingSpace (v : String) : NoTrailingSpace (TrimSpace v).data :=
  noTrailingSpace_rdropWhile _

theorem join_split (s : String) (sep : Char) : Join (Split s sep) ⟨[sep]⟩ = s := by
  apply String.ext
  simp only [Join, Split, List.map_map]
  have : (String.data ∘ String.mk) = id := by funext l; rfl
  rw [this, List.map_id, intercalate_splitRunes]

end strings

/-! ## Option resolution -/

theorem newCalls_fetch_ok {σ α : Type} (s : Svc σ) (c : Call)
    (m : σ → Except GoError α × σ) (jobf : α → RenderJob) :
    newCalls s (fetch s c m (fun v s => Built.ok (jobf v) s)) = [⟨c, errOf (m s.state).1⟩] := by
  rcases h : (m s.state).1 with e | v
  · rw [fetch_error s c m _ e h]; simp [newCalls, Built.fail, errOf]
  · rw [fetch_ok s c m _ v h]; simp [newCalls, Built.ok, errOf]

theorem fetch_ok_job {σ α : Type} (s : Svc σ) (c : Call)
    (m : σ → Except GoError α × σ) (jobf : α → RenderJob) (job : RenderJob)
    (h : (fetch s c m (fun v s => Built.ok (jobf v) s)).f = some job) :
    ∃ v, (m s.state).1 = Except.ok v ∧ job = jobf v := by
  rcases hm : (m s.state).1 with e | v
  · rw [fetch_error s c m _ e hm] at h; simp [Built.fail] at h
  · rw [fetch_ok s c m _ v hm] at h
    simp only [Built.ok, Option.some.injEq] at h
    exact ⟨v, rfl, h.symm⟩

theorem length_pos_iff_ne_empty (v : String) : 0 < v.length ↔ v ≠ "" := by
  rw [String.length, List.length_pos]
  constructor
  · intro h hv; subst hv; exact h rfl
  · intro h hd; exact h (String.ext hd)

theorem listOption_of_nonempty (w : Widget) (key : String) (d : List String) (v : String)
    (hk : w.Options.lookup key = some v) (hv : v ≠ "") :
    listOption w key d = strings.Split (strings.TrimSpace v) ',' := by
  simp only [listOption, hk, (length_pos_iff_ne_empty v).2 hv, if_true]

theorem listOption_of_empty (w : Widget) (key : String) (d : List String)
    (hk : w.Options.lookup key = some "") : listOption w key d = d := by
  simp [listOption, hk]

theorem listOption_of_absent (w : Widget) (key : String) (d : List String)
    (hk : w.Options.lookup key = none) : listOption w key d = d := by
  simp [listOption, hk]

theorem barMemory_calls {σ : Type} [CaseTables] (ms : HostWidget σ) (w : Widget) (s : Svc σ) :
    ∃ e, newCalls s (barMemory ms w s)
      = [⟨Call.Memory (memoryMetrics w) (unitOf w "kb"), e⟩] := by
  rw [barMemory_shape, newCalls_fetch_ok]
  exact ⟨_, rfl⟩

theorem barMemory_job {σ : Type} [CaseTables] (ms : HostWidget σ) (w : Widget) (s : Svc σ)
    (job : RenderJob) (h : (barMemory ms w s).f = some job) :
    ∃ mem, job = RenderJob.AddBarChart mem (listOption w optionHeaders (memoryMetrics w))
      ((w.Options.lookup optionTitle).getD
        (" Memory (" ++ strings.ToUpper (unitOf w "kb") ++ ") ")) w.Options := by
  rw [barMemory_shape] at h
  obtain ⟨v, _, hj⟩ := fetch_ok_job _ _ _ _ _ h
  exact ⟨v, hj⟩

theorem table_calls {σ : Type} (ms : HostWidget σ) (w : Widget) (s : Svc σ) :
    ∃ e, newCalls s (table ms w s)
      = [⟨Call.Table (tableCommand w) (listOption w optionHeaders (tableBaseHeaders w)), e⟩] := by
  rw [table_shape, newCalls_fetch_ok]
  exact ⟨_, rfl⟩

/-- C4 (as stated, refuted): the metrics value " " is empty after trimming,
yet the memory-bar builder replaces the default metric keys: it asks the
service for the single key "". -/
theorem list_option_whitespace_replaces_default :
    strings.TrimSpace " " = ""
      ∧ newCalls freshSvc
          (barMemory ⟨none, sampleHost⟩ ⟨"rh.bar_memory", [("metrics", " ")]⟩ freshSvc)
          = [⟨Call.Memory [""] "kb", none⟩]
      ∧ ([""] : List String) ≠ ["MemTotal", "MemFree", "MemAvailable"] := by
  decide

/-- C4 (amended): the metrics and headers of the memory-bar builder and the
headers of the generic-table builder are list options; a list option replaces
its default exactly when the key is present with a value of non-zero length,
tested before trimming; an absent key or an empty value keeps the default, and
a value of white space only replaces it by the single empty piece. -/
theorem list_option_override {σ : Type} [CaseTables] (ms : HostWidget σ) (w : Widget)
    (s : Svc σ) :
    (∃ e, newCalls s (barMemory ms w s)
        = [⟨Call.Memory (listOption w optionMetrics ["MemTotal", "MemFree", "MemAvailable"])
            (unitOf w "kb"), e⟩])
      ∧ (∀ job, (barMemory ms w s).f = some job →
          ∃ mem title, job = RenderJob.AddBarChart mem
            (listOption w optionHeaders
              (listOption w optionMetrics ["MemTotal", "MemFree", "MemAvailable"]))
            title w.Options)
      ∧ (∃ e, newCalls s (table ms w s)
          = [⟨Call.Table (tableCommand w) (listOption w optionHeaders (tableBaseHeaders w)),
              e⟩])
      ∧ (∀ key d,
          (∀ v, w.Options.lookup key = some v → v ≠ "" →
              listOption w key d = strings.Split (strings.TrimSpace v) ',')
            ∧ (w.Options.lookup key = some "" → listOption w key d = d)
            ∧ (w.Options.lookup key = none → listOption w key d = d))
      ∧ (∀ key d v, w.Options.lookup key = some v → v ≠ "" → strings.TrimSpace v = "" →
          listOption w key d = [""]) := by
  refine ⟨barMemory_calls ms w s, ?_, table_calls ms w s, ?_, ?_⟩
  · intro job h
    obtain ⟨mem, hj⟩ := barMemory_job ms w s job h
    exact ⟨mem, _, hj⟩
  · intro key d
    exact ⟨fun v hk hv => listOption_of_nonempty w key d v hk hv,
      listOption_of_empty w key d, listOption_of_absent w key d⟩
  · intro key d v hk hv ht
    rw [listOption_of_nonempty w key d v hk hv, ht]
    rfl

/-! ### Splitting -/

theorem split_pieces (s : String) (sep : Char) :
    strings.Join (strings.Split s sep) ⟨[sep]⟩ = s
      ∧ (∀ p ∈ strings.Split s sep, sep ∉ p.data)
      ∧ (∀ p ∈ (strings.Split s sep).head?, p.data <+: s.data)
      ∧ (∀ p ∈ (strings.Split s sep).getLast?, p.data <:+ s.data) := by
  refine ⟨strings.join_split s sep, ?_, ?_, ?_⟩
  · intro p hp
    simp only [strings.Split, List.mem_map] at hp
    obtain ⟨l, hl, rfl⟩ := hp
    exact strings.not_mem_of_mem_splitRunes sep s.data l hl
  · intro p hp
    simp only [strings.Split, List.head?_map, Option.mem_def, Option.map_eq_some'] at hp
    obtain ⟨l, hl, rfl⟩ := hp
    exact strings.head_splitRunes_prefix sep s.data l hl
  · intro p hp
    simp only [strings.Split, List.getLast?_map, Option.mem_def, Option.map_eq_some'] at hp
    obtain ⟨l, hl, rfl⟩ := hp
    exact strings.getLast_splitRunes_suffix sep s.data l hl

/-- C5 (as stated, refuted): the headers value "A, B" resolves to the pieces
"A" and " B": the second element keeps its leading space, it is not trimmed. -/
theorem list_option_inner_space_kept :
    newCalls freshSvc
        (table ⟨none, sampleHost⟩ ⟨"rh.table", [("headers", "A, B")]⟩ freshSvc)
        = [⟨Call.Table "/bin/df -x devtmpfs -x tmpfs -x debugfs | tail -n +2" ["A", " B"],
            none⟩]
      ∧ strings.TrimSpace " B" ≠ " B" := by
  decide

/-- C5 (amended): a list option with a non-empty value resolves to the
comma-separated pieces, in order, of the value trimmed as a whole: joining
the pieces with commas gives back the trimmed value and no piece holds a
comma; elements are not trimmed one by one, only the first element is free of
leading and the last of trailing white space. This is the list the memory-bar
builder uses for metrics and headers and the generic-table builder for
headers. -/
theorem list_option_split {σ : Type} [CaseTables] (ms : HostWidget σ) (w : Widget)
    (s : Svc σ) (key : String) (d : List String) (v : String)
    (hk : w.Options.lookup key = some v) (hv : v ≠ "") :
    (∃ e, newCalls s (barMemory ms w s)
        = [⟨Call.Memory (listOption w optionMetrics ["MemTotal", "MemFree", "MemAvailable"])
            (unitOf w "kb"), e⟩])
      ∧ (∀ job, (barMemory ms w s).f = some job →
          ∃ mem title, job = RenderJob.AddBarChart mem
            (listOption w optionHeaders
              (listOption w optionMetrics ["MemTotal", "MemFree", "MemAvailable"]))
            title w.Options)
      ∧ (∃ e, newCalls s (table ms w s)
          = [⟨Call.Table (tableCommand w) (listOption w optionHeaders (tableBaseHeaders w)),
              e⟩])
      ∧ listOption w key d = strings.Split (strings.TrimSpace v) ','
      ∧ strings.Join (listOption w key d) "," = strings.TrimSpace v
      ∧ (∀ p ∈ listOption w key d, ',' ∉ p.data)
      ∧ (∀ p ∈ (listOption w key d).head?, strings.NoLeadingSpace p.data)
      ∧ (∀ p ∈ (listOption w key d).getLast?, strings.NoTrailingSpace p.data) := by
  have hl := listOption_of_nonempty w key d v hk hv
  obtain ⟨hjoin, hsep, hhead, hlast⟩ := split_pieces (strings.TrimSpace v) ','
  refine ⟨barMemory_calls ms w s, ?_, table_calls ms w s, hl, ?_, ?_, ?_, ?_⟩
  · intro job h
    obtain ⟨mem, hj⟩ := barMemory_job ms w s job h
    exact ⟨mem, _, hj⟩
  · rw [hl]; exact hjoin
  · rw [hl]; exact hsep
  · rw [hl]
    intro p hp
    exact strings.noLeadingSpace_of_prefix _ _ (hhead p hp) (strings.trimSpace_noLeadingSpace v)
  · rw [hl]
    intro p hp
    exact strings.noTrailingSpace_of_suffix _ _ (hlast p hp)
      (strings.trimSpace_noTrailingSpace v)

theorem list_option_split_witness :
    List.lookup "headers" [("headers", " A, B ")] = some " A, B "
      ∧ listOption ⟨"rh.table", [("headers", " A, B ")]⟩ "headers" [] = ["A", " B"]
      ∧ strings.Join (listOption ⟨"rh.table", [("headers", " A, B ")]⟩ "headers" []) ","
          = "A, B" :=
  have hk : List.lookup "headers" [("headers", " A, B ")] = some " A, B " := by decide
  have t := list_option_split ⟨none, sampleHost⟩ ⟨"rh.table", [("headers", " A, B ")]⟩
    freshSvc "headers" [] " A, B " hk (by decide)
  ⟨hk, t.2.2.2.1, t.2.2.2.2.1⟩

/-! ## Titles -/

theorem fetch_f_some {σ α : Type} (s : Svc σ) (c : Call) (m : σ → Except GoError α × σ)
    (k : α → Svc σ → Built σ) (job : RenderJob) (h : (fetch s c m k).f = some job) :
    ∃ v s', (k v s').f = some job := by
  rcases hm : (m s.state).1 with e | v
  · rw [fetch_error s c m k e hm] at h; simp [Built.fail] at h
  · rw [fetch_ok s c m k v hm] at h
    exact ⟨v, _, h⟩

/-- The title a builder passes on: the title option, else the default. -/
theorem title_of_job {σ : Type} [CaseTables]
    (p : (HostWidget σ → Widget → Svc σ → Built σ) × (Widget → String))
    (hp : p ∈ defaultTitles) (ms : HostWidget σ) (w : Widget) (s : Svc σ) (job : RenderJob)
    (h : (p.1 ms w s).f = some job) :
    job.title = (w.Options.lookup optionTitle).getD (p.2 w) := by
  simp only [defaultTitles, List.mem_cons, List.mem_singleton, List.not_mem_nil,
    or_false] at hp
  rcases hp with rfl | rfl | rfl | rfl | rfl | rfl | rfl | rfl | rfl | rfl | rfl | rfl
  · dsimp only at h ⊢
    rw [boxUptime_shape] at h
    obtain ⟨v, _, hj⟩ := fetch_ok_job _ _ _ _ _ h
    rw [hj]; rfl
  · dsimp only at h ⊢
    rw [boxLoad_shape] at h
    obtain ⟨v, _, hj⟩ := fetch_ok_job _ _ _ _ _ h
    rw [hj]; rfl
  · dsimp only at h ⊢
    rw [boxProcesses_shape] at h
    obtain ⟨v, _, hj⟩ := fetch_ok_job _ _ _ _ _ h
    rw [hj]; rfl
  · dsimp only at h ⊢
    rw [barMemory_shape] at h
    obtain ⟨v, _, hj⟩ := fetch_ok_job _ _ _ _ _ h
    rw [hj]; rfl
  · dsimp only at h ⊢
    rw [boxCPURate_shape] at h
    obtain ⟨v, _, hj⟩ := fetch_ok_job _ _ _ _ _ h
    rw [hj]; rfl
  · dsimp only at h ⊢
    rw [boxMemRate_shape] at h
    obtain ⟨v, _, hj⟩ := fetch_ok_job _ _ _ _ _ h
    rw [hj]; rfl
  · dsimp only at h ⊢
    rw [boxSwapRate_shape] at h
    obtain ⟨v, _, hj⟩ := fetch_ok_job _ _ _ _ _ h
    rw [hj]; rfl
  · dsimp only at h ⊢
    rw [boxNetIO_shape] at h
    obtain ⟨v, _, hj⟩ := fetch_ok_job _ _ _ _ _ h
    rw [hj]; rfl
  · dsimp only at h ⊢
    rw [boxDiskIO_shape] at h
    obtain ⟨v, _, hj⟩ := fetch_ok_job _ _ _ _ _ h
    rw [hj]; rfl
  · dsimp only at h ⊢
    rw [barRates_shape] at h
    obtain ⟨_, _, h⟩ := fetch_f_some _ _ _ _ _ h
    obtain ⟨_, _, h⟩ := fetch_f_some _ _ _ _ _ h
    obtain ⟨v, _, hj⟩ := fetch_ok_job _ _ _ _ _ h
    rw [hj]; rfl
  · dsimp only at h ⊢
    rw [tableDisk_shape] at h
    obtain ⟨v, _, hj⟩ := fetch_ok_job _ _ _ _ _ h
    rw [hj]; rfl
  · dsimp only at h ⊢
    rw [table_shape] at h
    obtain ⟨v, _, hj⟩ := fetch_ok_job _ _ _ _ _ h
    rw [hj]; rfl

/-- A default title depends on the options through the unit only. -/
theorem defaultTitle_congr {σ : Type} [CaseTables]
    (p : (HostWidget σ → Widget → Svc σ → Built σ) × (Widget → String))
    (hp : p ∈ defaultTitles) (w w' : Widget)
    (hu : w'.Options.lookup optionUnit = w.Options.lookup optionUnit) : p.2 w' = p.2 w := by
  simp only [defaultTitles, List.mem_cons, List.mem_singleton, List.not_mem_nil,
    or_false] at hp
  rcases hp with rfl | rfl | rfl | rfl | rfl | rfl | rfl | rfl | rfl | rfl | rfl | rfl <;>
    simp only [unitOf, hu]

/-- C6: for each of the twelve builders (the first components of
defaultTitles are exactly the builders), the title passed to the sink is the
value of the title option when the key is present, the empty string included,
and the builder's built-in default when it is absent; two option sets that
agree on the recognized keys give the same title, so no other key changes it. -/
theorem builder_title {σ : Type} [CaseTables] :
    (defaultTitles.map Prod.fst
        = (builders : List (HostWidget σ → Widget → Svc σ → Built σ)))
      ∧ ∀ p ∈ (defaultTitles :
            List ((HostWidget σ → Widget → Svc σ → Built σ) × (Widget → String))),
          ∀ (ms : HostWidget σ) (w : Widget) (s : Svc σ) (job : RenderJob),
            (p.1 ms w s).f = some job →
              (∀ t, w.Options.lookup optionTitle = some t → job.title = t)
                ∧ (w.Options.lookup optionTitle = none → job.title = p.2 w)
                ∧ (∀ (w' : Widget) (s' : Svc σ) (job' : RenderJob),
                    (∀ k ∈ recognizedKeys, w'.Options.lookup k = w.Options.lookup k) →
                      (p.1 ms w' s').f = some job' → job'.title = job.title) := by
  refine ⟨rfl, ?_⟩
  intro p hp ms w s job h
  have ht := title_of_job p hp ms w s job h
  refine ⟨?_, ?_, ?_⟩
  · intro t hl; rw [ht, hl]; rfl
  · intro hl; rw [ht, hl]; rfl
  · intro w' s' job' hk h'
    have ht' := title_of_job p hp ms w' s' job' h'
    have h1 : w'.Options.lookup optionTitle = w.Options.lookup optionTitle :=
      hk optionTitle (by simp [recognizedKeys])
    have h2 : w'.Options.lookup optionUnit = w.Options.lookup optionUnit :=
      hk optionUnit (by simp [recognizedKeys])
    rw [ht, ht', h1, defaultTitle_congr p hp w w' h2]

theorem builder_title_witness :
    (boxLoad ⟨none, sampleHost⟩ ⟨"rh.box_load", [("title", ""), ("color", "red")]⟩
        freshSvc).f = some (RenderJob.AddTextBox "0.42 0.30 0.25" ""
          [("title", ""), ("color", "red")])
      ∧ (RenderJob.AddTextBox "0.42 0.30 0.25" "" [("title", ""), ("color", "red")]).title
          = "" :=
  have hf : (boxLoad ⟨none, sampleHost⟩ ⟨"rh.box_load", [("title", ""), ("color", "red")]⟩
      freshSvc).f = some (RenderJob.AddTextBox "0.42 0.30 0.25" ""
        [("title", ""), ("color", "red")]) := by decide
  ⟨hf, (builder_title.2 (boxLoad, fun _ => " Load ") (by simp [defaultTitles])
    ⟨none, sampleHost⟩ ⟨"rh.box_load", [("title", ""), ("color", "red")]⟩ freshSvc _ hf).1
      "" (by decide)⟩

/-! ## Memory bar and generic table -/

/-- C7: in the memory-bar builder headers and metrics are resolved
independently: with headers "A,B" and metrics "X,Y" the service is asked for
the keys X, Y and the chart is labelled A, B; when headers is absent or empty
the labels are the metric keys sent to the service, which are the supplied
metrics when given and non-empty and MemTotal, MemFree, MemAvailable
otherwise. -/
theorem barMemory_headers_metrics {σ : Type} [CaseTables] (ms : HostWidget σ) (w : Widget)
    (s : Svc σ) :
    (w.Options.lookup optionHeaders = some "A,B" →
        w.Options.lookup optionMetrics = some "X,Y" →
          (∃ e, newCalls s (barMemory ms w s)
              = [⟨Call.Memory ["X", "Y"] (unitOf w "kb"), e⟩])
            ∧ ∀ job, (barMemory ms w s).f = some job →
                ∃ mem title, job = RenderJob.AddBarChart mem ["A", "B"] title w.Options)
      ∧ (w.Options.lookup optionHeaders = none ∨ w.Options.lookup optionHeaders = some "" →
          ∃ keys : List String,
            (∃ e, newCalls s (barMemory ms w s) = [⟨Call.Memory keys (unitOf w "kb"), e⟩])
              ∧ (∀ job, (barMemory ms w s).f = some job →
                  ∃ mem title, job = RenderJob.AddBarChart mem keys title w.Options)
              ∧ (∀ v, w.Options.lookup optionMetrics = some v → v ≠ "" →
                  keys = strings.Split (strings.TrimSpace v) ',')
              ∧ (w.Options.lookup optionMetrics = none
                    ∨ w.Options.lookup optionMetrics = some "" →
                  keys = ["MemTotal", "MemFree", "MemAvailable"])) := by
  constructor
  · intro hh hm
    have h1 : memoryMetrics w = ["X", "Y"] := by
      rw [memoryMetrics, listOption_of_nonempty w _ _ "X,Y" hm (by decide)]; decide
    have h2 : listOption w optionHeaders (memoryMetrics w) = ["A", "B"] := by
      rw [listOption_of_nonempty w _ _ "A,B" hh (by decide)]; decide
    refine ⟨?_, ?_⟩
    · rw [← h1]; exact barMemory_calls ms w s
    · intro job hj
      obtain ⟨mem, hjob⟩ := barMemory_job ms w s job hj
      rw [h2] at hjob
      exact ⟨mem, _, hjob⟩
  · intro hh
    have h2 : listOption w optionHeaders (memoryMetrics w) = memoryMetrics w := by
      rcases hh with hh | hh
      · exact listOption_of_absent w _ _ hh
      · exact listOption_of_empty w _ _ hh
    refine ⟨memoryMetrics w, barMemory_calls ms w s, ?_, ?_, ?_⟩
    · intro job hj
      obtain ⟨mem, hjob⟩ := barMemory_job ms w s job hj
      rw [h2] at hjob
      exact ⟨mem, _, hjob⟩
    · intro v hm hv
      exact listOption_of_nonempty w _ _ v hm hv
    · intro hm
      rcases hm with hm | hm
      · exact listOption_of_absent w _ _ hm
      · exact listOption_of_empty w _ _ hm

theorem barMemory_headers_metrics_witness :
    List.lookup optionHeaders [("headers", "A,B"), ("metrics", "X,Y")] = some "A,B"
      ∧ List.lookup optionMetrics [("headers", "A,B"), ("metrics", "X,Y")] = some "X,Y"
      ∧ (barMemory ⟨none, sampleHost⟩
          ⟨"rh.bar_memory", [("headers", "A,B"), ("metrics", "X,Y")]⟩ freshSvc).f
          = some (RenderJob.AddBarChart [1024, 1024] ["A", "B"] " Memory (KB) "
              [("headers", "A,B"), ("metrics", "X,Y")])
      ∧ ∃ e, newCalls freshSvc (barMemory ⟨none, sampleHost⟩
          ⟨"rh.bar_memory", [("headers", "A,B"), ("metrics", "X,Y")]⟩ freshSvc)
          = [⟨Call.Memory ["X", "Y"] "kb", e⟩] :=
  have hh : List.lookup optionHeaders [("headers", "A,B"), ("metrics", "X,Y")]
      = some "A,B" := by decide
  have hm : List.lookup optionMetrics [("headers", "A,B"), ("metrics", "X,Y")]
      = some "X,Y" := by decide
  ⟨hh, hm, by decide,
    ((barMemory_headers_metrics ⟨none, sampleHost⟩
      ⟨"rh.bar_memory", [("headers", "A,B"), ("metrics", "X,Y")]⟩ freshSvc).1 hh hm).1⟩

/-- C8: the generic-table builder calls Table with the command option when
the key is present and with the default df listing otherwise; with no
non-empty headers option the headers are empty under a custom command and the
six df columns under the default one; a non-empty headers option is used in
both cases. -/
theorem table_command_headers {σ : Type} (ms : HostWidget σ) (w : Widget) (s : Svc σ) :
    ∃ cmd hdrs e, newCalls s (table ms w s) = [⟨Call.Table cmd hdrs, e⟩]
      ∧ (∀ c, w.Options.lookup optionCommand = some c →
          cmd = c
            ∧ (w.Options.lookup optionHeaders = none
                  ∨ w.Options.lookup optionHeaders = some "" → hdrs = []))
      ∧ (w.Options.lookup optionCommand = none →
          cmd = "/bin/df -x devtmpfs -x tmpfs -x debugfs | tail -n +2"
            ∧ (w.Options.lookup optionHeaders = none
                  ∨ w.Options.lookup optionHeaders = some "" →
                hdrs = ["Filesystem", "Size", "Used", "Available", "Use%", "Mount"]))
      ∧ (∀ v, w.Options.lookup optionHeaders = some v → v ≠ "" →
          hdrs = strings.Split (strings.TrimSpace v) ',') := by
  obtain ⟨e, he⟩ := table_calls ms w s
  have hbase : w.Options.lookup optionHeaders = none
      ∨ w.Options.lookup optionHeaders = some "" →
      listOption w optionHeaders (tableBaseHeaders w) = tableBaseHeaders w := by
    intro hh
    rcases hh with hh | hh
    · exact listOption_of_absent w _ _ hh
    · exact listOption_of_empty w _ _ hh
  refine ⟨tableCommand w, listOption w optionHeaders (tableBaseHeaders w), e, he, ?_, ?_, ?_⟩
  · intro c hc
    refine ⟨by simp [tableCommand, hc], fun hh => ?_⟩
    rw [hbase hh]; simp [tableBaseHeaders, hc]
  · intro hc
    refine ⟨by simp [tableCommand, hc], fun hh => ?_⟩
    rw [hbase hh]; simp [tableBaseHeaders, hc]
  · intro v hh hv
    exact listOption_of_nonempty w _ _ v hh hv

theorem table_command_headers_witness :
    newCalls freshSvc (table ⟨none, sampleHost⟩ ⟨"rh.table", [("command", "custom")]⟩ freshSvc)
        = [⟨Call.Table "custom" [], none⟩]
      ∧ ∃ cmd hdrs e,
          newCalls freshSvc
              (table ⟨none, sampleHost⟩ ⟨"rh.table", [("command", "custom")]⟩ freshSvc)
            = [⟨Call.Table cmd hdrs, e⟩]
          ∧ cmd = "custom" ∧ hdrs = [] :=
  ⟨by decide,
    match table_command_headers ⟨none, sampleHost⟩ ⟨"rh.table", [("command", "custom")]⟩
      freshSvc with
    | ⟨cmd, hdrs, e, h, hc, _, _⟩ =>
      ⟨cmd, hdrs, e, h, (hc "custom" (by decide)).1, (hc "custom" (by decide)).2
        (Or.inl (by decide))⟩⟩

/-! ## Duration formatting -/

theorem digitChar_eq (k : Nat) (hk : k < 10) : Nat.digitChar k = Char.ofNat (k + 48) := by
  interval_cases k <;> rfl

theorem fmtDigits_zero (fuel : Nat) (acc : List Char) : fmtDigits fuel 0 acc = acc := by
  cases fuel <;> simp [fmtDigits]

theorem fmtDigits_eq_toDigitsCore (fuel v : Nat) (acc : List Char) (hv : 0 < v)
    (hf : v ≤ fuel) : fmtDigits fuel v acc = Nat.toDigitsCore 10 fuel v acc := by
  induction fuel generalizing v acc with
  | zero => omega
  | succ f ih =>
    rw [fmtDigits, Nat.toDigitsCore, if_neg (by omega)]
    rw [digitChar_eq (v % 10) (Nat.mod_lt _ (by decide))]
    by_cases h0 : v / 10 = 0
    · simp only [h0, fmtDigits_zero, if_true]
    · rw [if_neg h0]
      exact ih (v / 10) _ (Nat.pos_of_ne_zero h0) (by omega)

/-- The digits written by `fmtInt` are the decimal numeral of `v`. -/
theorem fmtInt_eq_repr (v : Nat) : fmtInt v = (Nat.repr v).data := by
  unfold fmtInt Nat.repr Nat.toDigits
  by_cases hv : v = 0
  · subst hv; rfl
  · rw [if_neg hv,
      fmtDigits_eq_toDigitsCore (v + 1) v [] (Nat.pos_of_ne_zero hv) (Nat.le_succ v)]
    rfl

theorem fmtDigits_plain (fuel v : Nat) (acc : List Char)
    (hacc : ∀ c ∈ acc, c ≠ 'h' ∧ c ≠ 'm' ∧ c ≠ 'd') :
    ∀ c ∈ fmtDigits fuel v acc, c ≠ 'h' ∧ c ≠ 'm' ∧ c ≠ 'd' := by
  induction fuel generalizing v acc with
  | zero => simpa [fmtDigits] using hacc
  | succ f ih =>
    rw [fmtDigits]
    by_cases hv : v = 0
    · rw [if_pos hv]; exact hacc
    · rw [if_neg hv]
      apply ih
      intro c hc
      rcases List.mem_cons.1 hc with rfl | hc
      · have hlt : v % 10 < 10 := Nat.mod_lt _ (by decide)
        generalize v % 10 = k at hlt
        interval_cases k <;> decide
      · exact hacc c hc

/-- The runes `fmtInt` writes are digits, so none is a unit letter. -/
theorem fmtInt_plain (v : Nat) : ∀ c ∈ fmtInt v, c ≠ 'h' ∧ c ≠ 'm' ∧ c ≠ 'd' := by
  unfold fmtInt
  by_cases hv : v = 0
  · rw [if_pos hv]; intro c hc; simp at hc; subst hc; decide
  · rw [if_neg hv]; exact fmtDigits_plain _ _ _ (by simp)

/-- The loop of `fmtFrac` writes nothing when the digits consumed are zeros. -/
theorem fmtFracLoop_of_dvd (prec v : Nat) (buf : List Char) (h : 10 ^ prec ∣ v) :
    time.fmtFracLoop prec v false buf = (buf, v / 10 ^ prec, false) := by
  induction prec generalizing v with
  | zero => simp [time.fmtFracLoop]
  | succ n ih =>
    obtain ⟨q, rfl⟩ := h
    have h10 : 10 ^ (n + 1) * q = 10 * (10 ^ n * q) := by ring
    have hmod : (10 ^ (n + 1) * q) % 10 = 0 := by rw [h10]; exact Nat.mul_mod_right _ _
    have hdiv : (10 ^ (n + 1) * q) / 10 = 10 ^ n * q := by
      rw [h10]; exact Nat.mul_div_cancel_left _ (by decide)
    rw [time.fmtFracLoop]
    simp only [hmod, hdiv, bne_self_eq_false, Bool.or_false, Bool.false_eq_true, if_false]
    rw [ih (10 ^ n * q) (Dvd.intro _ rfl)]
    rw [Nat.mul_div_cancel_left _ (by positivity), Nat.mul_div_cancel_left _ (by positivity)]

theorem fmtFrac_seconds (buf : List Char) (k : Nat) :
    time.fmtFrac buf (k * 1000000000) 9 = (buf, k) := by
  unfold time.fmtFrac
  rw [fmtFracLoop_of_dvd 9 (k * 1000000000) buf ⟨k, by ring⟩]
  simp

/-- The text `Duration.String` gives for a whole number of seconds. -/
theorem duration_String_seconds (k : Nat) :
    time.Duration.String ((k : Int) * time.Second) = ⟨hmsRunes k⟩ := by
  have hS : time.Second = 1000000000 := by decide
  have hS' : time.Second.natAbs = 1000000000 := by decide
  have habs : ((k : Int) * time.Second).natAbs = k * 1000000000 := by
    rw [hS]; omega
  have hneg : ¬ ((k : Int) * time.Second < 0) := by rw [hS]; omega
  unfold time.Duration.String hmsRunes
  simp only [habs, hS', hneg, if_false]
  by_cases hk : k = 0
  · subst hk; simp
  · have h1 : ¬ k * 1000000000 < 1000000000 := by omega
    simp only [h1, if_false, fmtFrac_seconds, hk]
    by_cases hm : 0 < k / 60
    · by_cases hh : 0 < k / 60 / 60
      · simp [hm, hh]
      · simp [hm, hh]
    · have hh : ¬ 0 < k / 60 / 60 := by omega
      simp [hm, hh]

theorem dayLoop_le (days : Nat) (dur : Int) (h : dur ≤ 24 * time.Hour) :
    dayLoop days dur = (days, dur) := by
  rw [dayLoop]
  simp [time.Duration.hoursExceed24, not_lt.2 h]

theorem dayLoop_gt (days : Nat) (dur : Int) (h : 24 * time.Hour < dur) :
    dayLoop days dur = dayLoop (days + 1) (dur - 24 * time.Hour) := by
  rw [dayLoop]
  simp [time.Duration.hoursExceed24, h]

/-- One loop takes `n` blocks of 24 hours off `n * 24h + r` when the rest `r`
is at most 24 hours, and positive unless `n` is zero. -/
theorem dayLoop_blocks (n days : Nat) (r : Int) (hr : r ≤ 24 * time.Hour)
    (hpos : n = 0 ∨ 0 < r) :
    dayLoop days ((n : Int) * (24 * time.Hour) + r) = (days + n, r) := by
  induction n generalizing days with
  | zero => simpa using dayLoop_le days r hr
  | succ n ih =>
    have hr0 : 0 < r := by
      rcases hpos with h | h
      · exact absurd h (Nat.succ_ne_zero n)
      · exact h
    have hH : time.Hour = 3600000000000 := by decide
    have hgt : 24 * time.Hour < ((n + 1 : Nat) : Int) * (24 * time.Hour) + r := by
      rw [hH]; push_cast; omega
    have hsub : ((n + 1 : Nat) : Int) * (24 * time.Hour) + r - 24 * time.Hour
        = (n : Int) * (24 * time.Hour) + r := by
      push_cast; ring
    rw [dayLoop_gt _ _ hgt, hsub, ih (days + 1) (Or.inr hr0)]
    congr 1
    omega

theorem spaceUnits_data (s2 s1 : String) :
    (spaceUnits s2 s1).data = s2.data ++ spaced s1.data := by
  unfold spaceUnits spaced
  generalize s1.data = l
  induction l generalizing s2 with
  | nil => simp
  | cons c cs ih =>
    simp only [List.foldl_cons, List.flatMap_cons]
    rw [ih]
    by_cases h : c = 'h' ∨ c = 'm'
    · simp [h, String.data_push]
    · simp [h, String.data_push]

theorem spaced_append (a b : List Char) : spaced (a ++ b) = spaced a ++ spaced b := by
  simp [spaced, List.flatMap_append]

theorem spaced_plain (l : List Char) (h : ∀ c ∈ l, c ≠ 'h' ∧ c ≠ 'm' ∧ c ≠ 'd') :
    spaced l = l := by
  induction l with
  | nil => rfl
  | cons c cs ih =>
    have hc := h c (List.mem_cons_self _ _)
    have hcs : spaced cs = cs := ih (fun x hx => h x (List.mem_cons_of_mem _ hx))
    have : spaced (c :: cs) = (if c = 'h' ∨ c = 'm' then [c, ' '] else [c]) ++ spaced cs := by
      simp [spaced, List.flatMap_cons]
    rw [this, hcs, if_neg (by simp [hc.1, hc.2.1])]
    rfl

theorem spaced_fmtInt (v : Nat) : spaced (fmtInt v) = fmtInt v :=
  spaced_plain _ (fmtInt_plain v)

theorem mem_spaced (l : List Char) (c : Char) (hc : c ∈ spaced l) : c ∈ l ∨ c = ' ' := by
  simp only [spaced, List.mem_flatMap] at hc
  obtain ⟨a, ha, hca⟩ := hc
  by_cases h : a = 'h' ∨ a = 'm'
  · rw [if_pos h] at hca
    simp only [List.mem_cons, List.mem_singleton, List.not_mem_nil, or_false] at hca
    rcases hca with rfl | rfl
    · exact Or.inl ha
    · exact Or.inr rfl
  · rw [if_neg h] at hca
    simp only [List.mem_singleton] at hca
    subst hca
    exact Or.inl ha

theorem hmsRunes_no_d (k : Nat) : 'd' ∉ hmsRunes k := by
  have hp : ∀ v, 'd' ∉ fmtInt v := fun v hv => (fmtInt_plain v 'd' hv).2.2 rfl
  unfold hmsRunes
  by_cases hk : k = 0
  · rw [if_pos hk]; decide
  · rw [if_neg hk]
    simp only [List.mem_append, not_or]
    refine ⟨⟨⟨?_, ?_⟩, hp _⟩, by decide⟩
    · split
      · simp only [List.mem_append, not_or]; exact ⟨hp _, by decide⟩
      · simp
    · split
      · simp only [List.mem_append, not_or]; exact ⟨hp _, by decide⟩
      · simp

/-- Truncation to whole seconds of a non-negative duration. -/
theorem trunc_seconds (k frac : Nat) (hf : frac < 1000000000) :
    ((k : Int) * 1000000000 + frac) - ((k : Int) * 1000000000 + frac).tmod time.Second
      = (k : Int) * time.Second := by
  have hS : time.Second = 1000000000 := by decide
  rw [hS, Int.tmod_eq_emod (by omega) (by omega)]
  omega

/-- The result of `formatSeconds` on `n` blocks of 24 hours plus `r` seconds
(`r` at most 24 hours, positive unless `n` is zero) and a sub-second
fraction. -/
theorem formatSeconds_blocks (n r frac : Nat) (hr : r ≤ 86400) (hpos : n = 0 ∨ 0 < r)
    (hf : frac < 1000000000) :
    formatSeconds (((n * 86400 + r : Nat) : Int) * 1000000000 + frac)
      = ⟨(if 0 < n then fmtInt n ++ ['d', ' '] else []) ++ spaced (hmsRunes r)⟩ := by
  have hS : time.Second = 1000000000 := by decide
  have hH : time.Hour = 3600000000000 := by decide
  have hsplit : ((n * 86400 + r : Nat) : Int) * time.Second
      = (n : Int) * (24 * time.Hour) + (r : Int) * time.Second := by
    rw [hS, hH]; push_cast; ring
  have hr' : (r : Int) * time.Second ≤ 24 * time.Hour := by
    rw [hS, hH]; omega
  have hpos' : n = 0 ∨ 0 < (r : Int) * time.Second := by
    rcases hpos with h | h
    · exact Or.inl h
    · right; rw [hS]; omega
  unfold formatSeconds
  simp only [trunc_seconds _ frac hf]
  rw [hsplit, dayLoop_blocks n 0 _ hr' hpos']
  simp only [dayLoop_le _ _ hr', duration_String_seconds, Nat.zero_add]
  apply String.ext
  rw [spaceUnits_data]
  by_cases hn : 0 < n
  · simp [hn]
  · simp [hn]

/-- C9: a duration of d days, h hours, m minutes and s seconds plus a
sub-second fraction, with d at least 1, h from 1 to 23 and m, s at most 59,
is rendered as the numeral of d, "d ", the numeral of h, "h ", the numeral of
m, "m ", the numeral of s and "s". -/
theorem formatSeconds_days_hours (d h m s frac : Nat) (hd : 1 ≤ d) (hh1 : 1 ≤ h)
    (hh : h ≤ 23) (hm : m ≤ 59) (hs : s ≤ 59) (hf : frac < 1000000000) :
    formatSeconds (((((d * 24 + h) * 60 + m) * 60 + s : Nat) : Int) * time.Second + frac)
      = Nat.repr d ++ "d " ++ Nat.repr h ++ "h " ++ Nat.repr m ++ "m " ++ Nat.repr s
          ++ "s" := by
  have hS : time.Second = 1000000000 := by decide
  have hk : ((d * 24 + h) * 60 + m) * 60 + s = d * 86400 + ((h * 60 + m) * 60 + s) := by
    ring
  have h1 : ((h * 60 + m) * 60 + s) / 60 / 60 = h := by omega
  have h2 : ((h * 60 + m) * 60 + s) / 60 % 60 = m := by omega
  have h3 : ((h * 60 + m) * 60 + s) % 60 = s := by omega
  have h4 : ((h * 60 + m) * 60 + s) / 60 = h * 60 + m := by omega
  have h5 : (h * 60 + m) * 60 + s ≠ 0 := by omega
  have hd0 : 0 < d := hd
  have hh0 : 0 < h := hh1
  have h6 : 0 < ((h * 60 + m) * 60 + s) / 60 := by omega
  have hhms : hmsRunes ((h * 60 + m) * 60 + s)
      = fmtInt h ++ ['h'] ++ (fmtInt m ++ ['m']) ++ fmtInt s ++ ['s'] := by
    unfold hmsRunes
    rw [if_neg h5, h1, h2, h3, if_pos hh0, if_pos h6]
  have hsp : spaced (hmsRunes ((h * 60 + m) * 60 + s))
      = fmtInt h ++ ['h', ' '] ++ (fmtInt m ++ ['m', ' ']) ++ fmtInt s ++ ['s'] := by
    rw [hhms]
    simp only [spaced_append, spaced_fmtInt]
    rfl
  rw [hS, hk, formatSeconds_blocks d _ frac (by omega) (Or.inr (by omega)) hf, hsp,
    if_pos hd0]
  apply String.ext
  simp only [String.data_append, ← fmtInt_eq_repr, List.append_assoc]

theorem formatSeconds_days_hours_witness :
    formatSeconds (90061 * time.Second) = "1d 1h 1m 1s" :=
  formatSeconds_days_hours 1 1 1 1 0 (by decide) (by decide) (by decide) (by decide)
    (by decide) (by decide)

/-- Truncation to whole seconds of a duration shorter than a second, of
either sign: Go's remainder has the sign of the dividend. -/
theorem trunc_subsecond (t : Int) (h1 : -time.Second < t) (h2 : t < time.Second) :
    t - t.tmod time.Second = 0 := by
  have hS : time.Second = 1000000000 := by decide
  rw [hS] at h1 h2 ⊢
  have : t.tmod 1000000000 = t := by
    cases t with
    | ofNat a =>
      have ha : a < 1000000000 := by
        simp only [Int.ofNat_eq_coe] at h2
        omega
      show ((a % 1000000000 : Nat) : Int) = (a : Int)
      rw [Nat.mod_eq_of_lt ha]
    | negSucc a =>
      have ha : a + 1 < 1000000000 := by
        rw [Int.negSucc_eq] at h1
        omega
      show -(((a + 1) % 1000000000 : Nat) : Int) = Int.negSucc a
      rw [Nat.mod_eq_of_lt ha]
      rfl
  omega

/-- C10: zero seconds render as "0s"; a duration from 0 to 24 hours is
rendered without a day token: the result is the spaced base rendering of the
duration truncated to whole seconds and holds no d; a duration shorter than
one second is truncated and renders as "0s". -/
theorem formatSeconds_no_day_prefix :
    formatSeconds 0 = "0s"
      ∧ (∀ t : Int, 0 ≤ t → t ≤ 24 * time.Hour →
          formatSeconds t
              = spaceUnits "" (time.Duration.String (t - t.tmod time.Second))
            ∧ 'd' ∉ (formatSeconds t).data)
      ∧ (∀ t : Int, -time.Second < t → t < time.Second → formatSeconds t = "0s") := by
  have hS : time.Second = 1000000000 := by decide
  have hH : time.Hour = 3600000000000 := by decide
  have hsub : ∀ t : Int, -time.Second < t → t < time.Second → formatSeconds t = "0s" := by
    intro t h1 h2
    unfold formatSeconds
    simp only [trunc_subsecond t h1 h2]
    rw [dayLoop_le 0 0 (by decide)]
    simp only [dayLoop_le 0 0 (by decide)]
    decide
  refine ⟨hsub 0 (by decide) (by decide), ?_, hsub⟩
  intro t h0 h24
  obtain ⟨k, frac, hf, hr, rfl⟩ : ∃ k frac : Nat, frac < 1000000000 ∧ k ≤ 86400
      ∧ t = ((0 * 86400 + k : Nat) : Int) * 1000000000 + frac := by
    refine ⟨(t / 1000000000).toNat, (t % 1000000000).toNat, ?_, ?_, ?_⟩
    · omega
    · rw [hH] at h24; omega
    · omega
  have hfmt := formatSeconds_blocks 0 k frac hr (Or.inl rfl) hf
  have htr := trunc_seconds (0 * 86400 + k) frac hf
  simp only [Nat.zero_mul, Nat.zero_add] at hfmt htr ⊢
  constructor
  · rw [hfmt, htr, duration_String_seconds]
    apply String.ext
    rw [spaceUnits_data]
    simp
  · rw [hfmt]
    simp only [lt_self_iff_false, if_false, List.nil_append]
    intro hd
    rcases mem_spaced _ _ hd with h | h
    · exact hmsRunes_no_d k h
    · exact absurd h (by decide)

/-! ## Uptime -/

/-- A duration shorter than one second, of either sign, renders as "0s". -/
theorem formatSeconds_subsecond (t : Int) (h1 : -time.Second < t) (h2 : t < time.Second) :
    formatSeconds t = "0s" := by
  unfold formatSeconds
  simp only [trunc_subsecond t h1 h2]
  rw [dayLoop_le 0 0 (by decide)]
  simp only [dayLoop_le 0 0 (by decide)]
  decide

theorem boxUptime_job {σ : Type} (ms : HostWidget σ) (w : Widget) (s : Svc σ)
    (job : RenderJob) (h : (boxUptime ms w s).f = some job) :
    ∃ n, (ms.service.Uptime s.state).1 = Except.ok n
      ∧ job = RenderJob.AddTextBox (formatSeconds n)
          ((w.Options.lookup optionTitle).getD " Uptime ") w.Options := by
  rw [boxUptime_shape] at h
  exact fetch_ok_job _ _ _ _ _ h

/-- C11 (as stated, refuted): the service returns the uptime 90061 and the
uptime builder passes the text "0s" to AddTextBox, not "1d 1h 1m 1s": the
value is converted to a Duration as it is, a count of nanoseconds. -/
theorem uptime_value_taken_as_nanoseconds :
    (sampleHost.Uptime freshSvc.state).1 = Except.ok 90061
      ∧ (boxUptime ⟨none, sampleHost⟩ ⟨"rh.box_uptime", []⟩ freshSvc).f
          = some (RenderJob.AddTextBox "0s" " Uptime " [])
      ∧ "0s" ≠ "1d 1h 1m 1s" := by
  refine ⟨rfl, ?_, by decide⟩
  rw [boxUptime_shape, fetch_ok _ _ _ _ 90061 rfl]
  simp only [Built.ok, Option.some.injEq]
  rw [formatSeconds_subsecond 90061 (by decide) (by decide)]
  rfl

/-- C11 (amended): when the uptime builder succeeds, the service returned an
integer n and the RenderJob passes to AddTextBox the rendering by
formatSeconds of the Duration n, a count of nanoseconds: a value of less
than one second in magnitude, such as 90061, gives "0s", and the value
90061 * Second gives "1d 1h 1m 1s". -/
theorem uptime_text {σ : Type} (ms : HostWidget σ) (w : Widget) (s : Svc σ)
    (job : RenderJob) (h : (boxUptime ms w s).f = some job) :
    ∃ n : Int, (ms.service.Uptime s.state).1 = Except.ok n
      ∧ (∃ title, job = RenderJob.AddTextBox (formatSeconds n) title w.Options)
      ∧ (-time.Second < n → n < time.Second → formatSeconds n = "0s")
      ∧ (n = 90061 * time.Second → formatSeconds n = "1d 1h 1m 1s") := by
  obtain ⟨n, hn, hj⟩ := boxUptime_job ms w s job h
  refine ⟨n, hn, ⟨_, hj⟩, formatSeconds_subsecond n, ?_⟩
  intro h9
  have hb := formatSeconds_blocks 1 3661 0 (by decide) (Or.inr (by decide)) (by decide)
  have hS : time.Second = 1000000000 := by decide
  rw [h9, hS]
  have harg : ((90061 : Int) * 1000000000)
      = (((1 * 86400 + 3661 : Nat) : Int) * 1000000000 + ((0 : Nat) : Int)) := by decide
  rw [harg, hb]
  decide

theorem uptime_text_witness :
    (boxUptime ⟨none, sampleHost⟩ ⟨"rh.box_uptime", []⟩ freshSvc).f
        = some (RenderJob.AddTextBox "0s" " Uptime " [])
      ∧ ∃ n : Int, (sampleHost.Uptime freshSvc.state).1 = Except.ok n
          ∧ (-time.Second < n → n < time.Second → formatSeconds n = "0s") :=
  have hf : (boxUptime ⟨none, sampleHost⟩ ⟨"rh.box_uptime", []⟩ freshSvc).f
      = some (RenderJob.AddTextBox "0s" " Uptime " []) := by
    rw [boxUptime_shape, fetch_ok _ _ _ _ 90061 rfl]
    simp only [Built.ok, Option.some.injEq]
    rw [formatSeconds_subsecond 90061 (by decide) (by decide)]
    rfl
  match uptime_text ⟨none, sampleHost⟩ ⟨"rh.box_uptime", []⟩ freshSvc _ hf with
  | ⟨n, hn, _, h0, _⟩ => ⟨hf, n, hn, h0⟩

/-! ## Number of fetches -/

theorem barRates_calls {σ : Type} (ms : HostWidget σ) (w : Widget) (s : Svc σ) :
    newCalls s (barRates ms w s)
      = match (ms.service.SwapRate s.state).1 with
        | Except.error e => [⟨Call.SwapRate, some e⟩]
        | Except.ok _ =>
          match (ms.service.CPURate (ms.service.SwapRate s.state).2).1 with
          | Except.error e => [⟨Call.SwapRate, none⟩, ⟨Call.CPURate, some e⟩]
          | Except.ok _ =>
            [⟨Call.SwapRate, none⟩, ⟨Call.CPURate, none⟩,
              ⟨Call.MemoryRate,
                errOf (ms.service.MemoryRate
                  (ms.service.CPURate (ms.service.SwapRate s.state).2).2).1⟩] := by
  rw [barRates_shape]
  rcases h1 : (ms.service.SwapRate s.state).1 with e | v1
  · rw [fetch_error _ _ _ _ e h1]
    simp [newCalls, Built.fail]
  · rw [fetch_ok _ _ _ _ v1 h1]
    rcases h2 : (ms.service.CPURate (ms.service.SwapRate s.state).2).1 with e | v2
    · rw [fetch_error _ _ _ _ e h2]
      simp [newCalls, Built.fail]
    · rw [fetch_ok _ _ _ _ v2 h2]
      rcases h3 : (ms.service.MemoryRate
          (ms.service.CPURate (ms.service.SwapRate s.state).2).2).1 with e | v3
      · rw [fetch_error _ _ _ _ e h3]
        simp [newCalls, Built.fail, errOf]
      · rw [fetch_ok _ _ _ _ v3 h3]
        simp [newCalls, Built.ok, errOf]

theorem barRates_job {σ : Type} (ms : HostWidget σ) (w : Widget) (s : Svc σ)
    (job : RenderJob) (h : (barRates ms w s).f = some job) :
    ∃ swapRate cpuRate memoryRate,
      (ms.service.SwapRate s.state).1 = Except.ok swapRate
        ∧ (ms.service.CPURate (ms.service.SwapRate s.state).2).1 = Except.ok cpuRate
        ∧ (ms.service.MemoryRate
            (ms.service.CPURate (ms.service.SwapRate s.state).2).2).1 = Except.ok memoryRate
        ∧ job = RenderJob.AddBarChart
            [Float64.toInt cpuRate, Float64.toInt memoryRate, Float64.toInt swapRate]
            ["CPU", "Memory", "Swap"]
            ((w.Options.lookup optionTitle).getD " Resources usage (%) ") w.Options := by
  rw [barRates_shape] at h
  rcases h1 : (ms.service.SwapRate s.state).1 with e | v1
  · rw [fetch_error _ _ _ _ e h1] at h; simp [Built.fail] at h
  · rw [fetch_ok _ _ _ _ v1 h1] at h
    rcases h2 : (ms.service.CPURate (ms.service.SwapRate s.state).2).1 with e | v2
    · rw [fetch_error _ _ _ _ e h2] at h; simp [Built.fail] at h
    · rw [fetch_ok _ _ _ _ v2 h2] at h
      rcases h3 : (ms.service.MemoryRate
          (ms.service.CPURate (ms.service.SwapRate s.state).2).2).1 with e | v3
      · rw [fetch_error _ _ _ _ e h3] at h; simp [Built.fail] at h
      · rw [fetch_ok _ _ _ _ v3 h3] at h
        simp only [Built.ok, Option.some.injEq] at h
        exact ⟨v1, v2, v3, rfl, rfl, rfl, h.symm⟩

/-- C12 (as stated, refuted): one run of the rates-bar builder on a service
whose calls all succeed leaves three calls in the trace, not one. -/
theorem barRates_three_calls :
    (newCalls freshSvc (barRates ⟨none, sampleHost⟩ ⟨"rh.bar_rates", []⟩ freshSvc)).length
      = 3 := by
  decide

/-- C12 (amended): each of the eleven builders other than the rates bar
issues exactly one metrics-service call per run, whether it succeeds or
fails; the rates-bar builder, the twelfth, issues between one and three
calls: it stops at the first failing call and has issued three when it
returns a RenderJob. -/
theorem builder_call_count {σ : Type} [CaseTables] :
    (∀ b ∈ (singleFetchBuilders : List (HostWidget σ → Widget → Svc σ → Built σ)),
        ∀ (ms : HostWidget σ) (w : Widget) (s : Svc σ),
          (newCalls s (b ms w s)).length = 1)
      ∧ (∀ b : HostWidget σ → Widget → Svc σ → Built σ,
          b ∈ builders ↔ b ∈ singleFetchBuilders ∨ b = barRates)
      ∧ (∀ (ms : HostWidget σ) (w : Widget) (s : Svc σ),
          1 ≤ (newCalls s (barRates ms w s)).length
            ∧ (newCalls s (barRates ms w s)).length ≤ 3
            ∧ (∀ job, (barRates ms w s).f = some job →
                (newCalls s (barRates ms w s)).length = 3)
            ∧ (∀ r ∈ (newCalls s (barRates ms w s)).dropLast, r.err = none)) := by
  refine ⟨?_, ?_, ?_⟩
  · intro b hb ms w s
    simp only [singleFetchBuilders, List.mem_cons, List.mem_singleton, List.not_mem_nil,
      or_false] at hb
    rcases hb with rfl | rfl | rfl | rfl | rfl | rfl | rfl | rfl | rfl | rfl | rfl
    · rw [boxUptime_shape, newCalls_fetch_ok]; rfl
    · rw [boxLoad_shape, newCalls_fetch_ok]; rfl
    · rw [boxProcesses_shape, newCalls_fetch_ok]; rfl
    · rw [barMemory_shape, newCalls_fetch_ok]; rfl
    · rw [boxCPURate_shape, newCalls_fetch_ok]; rfl
    · rw [boxMemRate_shape, newCalls_fetch_ok]; rfl
    · rw [boxSwapRate_shape, newCalls_fetch_ok]; rfl
    · rw [boxNetIO_shape, newCalls_fetch_ok]; rfl
    · rw [boxDiskIO_shape, newCalls_fetch_ok]; rfl
    · rw [tableDisk_shape, newCalls_fetch_ok]; rfl
    · rw [table_shape, newCalls_fetch_ok]; rfl
  · intro b
    simp only [builders, singleFetchBuilders, List.mem_cons, List.mem_singleton,
      List.not_mem_nil, or_false]
    tauto
  · intro ms w s
    have hc := barRates_calls ms w s
    refine ⟨?_, ?_, ?_, ?_⟩
    · rw [hc]; split
      · simp
      · split <;> simp
    · rw [hc]; split
      · simp
      · split <;> simp
    · intro job hj
      obtain ⟨v1, v2, v3, h1, h2, h3, _⟩ := barRates_job ms w s job hj
      rw [hc]
      simp only [h1, h2]
      rfl
    · rw [hc]
      intro r hr
      split at hr
      · simp at hr
      · split at hr
        · simp at hr; rw [hr]
        · simp at hr
          rcases hr with rfl | rfl <;> rfl

/-! ## Returned errors -/

/-- Every builder run is fail-closed. -/
theorem builder_failClosed {σ : Type} [CaseTables]
    (b : HostWidget σ → Widget → Svc σ → Built σ) (hb : b ∈ builders)
    (ms : HostWidget σ) (w : Widget) (s : Svc σ) : FailClosed s (b ms w s) := by
  simp only [builders, List.mem_cons, List.mem_singleton, List.not_mem_nil, or_false] at hb
  rcases hb with rfl | rfl | rfl | rfl | rfl | rfl | rfl | rfl | rfl | rfl | rfl | rfl
  · rw [boxUptime_shape]
    exact failClosed_fetch s _ _ _ (fun _ _ => failClosed_ok _ _)
  · rw [boxLoad_shape]
    exact failClosed_fetch s _ _ _ (fun _ _ => failClosed_ok _ _)
  · rw [boxProcesses_shape]
    exact failClosed_fetch s _ _ _ (fun _ _ => failClosed_ok _ _)
  · rw [barMemory_shape]
    exact failClosed_fetch s _ _ _ (fun _ _ => failClosed_ok _ _)
  · rw [boxCPURate_shape]
    exact failClosed_fetch s _ _ _ (fun _ _ => failClosed_ok _ _)
  · rw [boxMemRate_shape]
    exact failClosed_fetch s _ _ _ (fun _ _ => failClosed_ok _ _)
  · rw [boxSwapRate_shape]
    exact failClosed_fetch s _ _ _ (fun _ _ => failClosed_ok _ _)
  · rw [boxNetIO_shape]
    exact failClosed_fetch s _ _ _ (fun _ _ => failClosed_ok _ _)
  · rw [boxDiskIO_shape]
    exact failClosed_fetch s _ _ _ (fun _ _ => failClosed_ok _ _)
  · rw [barRates_shape]
    exact failClosed_fetch s _ _ _ (fun _ _ => failClosed_fetch _ _ _ _
      (fun _ _ => failClosed_fetch _ _ _ _ (fun _ _ => failClosed_ok _ _)))
  · rw [tableDisk_shape]
    exact failClosed_fetch s _ _ _ (fun _ _ => failClosed_ok _ _)
  · rw [table_shape]
    exact failClosed_fetch s _ _ _ (fun _ _ => failClosed_ok _ _)

/-- The dispatcher either runs one of the builders on the widget or fails
with the unknown-kind error, leaving the service alone. -/
theorem createWidgets_cases {σ : Type} [CaseTables] (ms : HostWidget σ) (widget : Widget)
    (tui : Tui) (s : Svc σ) :
    (∃ b ∈ builders,
        CreateWidgets ms widget tui s
          = (⟨some tui, ms.service⟩, b ⟨some tui, ms.service⟩ widget s))
      ∨ CreateWidgets ms widget tui s
          = (⟨some tui, ms.service⟩, Built.fail (errCantFind widget.Name) s) := by
  unfold CreateWidgets
  dsimp only
  generalize strings.Replace1 widget.Name "lh" "rh" = name
  by_cases h0 : name = rhUptime
  · rw [if_pos h0]
    exact Or.inl ⟨boxUptime, by simp [builders], rfl⟩
  rw [if_neg h0]
  by_cases h1 : name = rhLoad
  · rw [if_pos h1]
    exact Or.inl ⟨boxLoad, by simp [builders], rfl⟩
  rw [if_neg h1]
  by_cases h2 : name = rhProcesses
  · rw [if_pos h2]
    exact Or.inl ⟨boxProcesses, by simp [builders], rfl⟩
  rw [if_neg h2]
  by_cases h3 : name = rhBarMemory
  · rw [if_pos h3]
    exact Or.inl ⟨barMemory, by simp [builders], rfl⟩
  rw [if_neg h3]
  by_cases h4 : name = rhBoxCPURate
  · rw [if_pos h4]
    exact Or.inl ⟨boxCPURate, by simp [builders], rfl⟩
  rw [if_neg h4]
  by_cases h5 : name = rhBoxMemRate
  · rw [if_pos h5]
    exact Or.inl ⟨boxMemRate, by simp [builders], rfl⟩
  rw [if_neg h5]
  by_cases h6 : name = rhBoxSwapRate
  · rw [if_pos h6]
    exact Or.inl ⟨boxSwapRate, by simp [builders], rfl⟩
  rw [if_neg h6]
  by_cases h7 : name = rhBoxNetIO
  · rw [if_pos h7]
    exact Or.inl ⟨ boxNetIO, by simp [builders], rfl⟩
  rw [if_neg h7]
  by_cases h8 : name = rhBoxDiskIO
  · rw [if_pos h8]
    exact Or.inl ⟨ boxDiskIO, by simp [builders], rfl⟩
  rw [if_neg h8]
  by_cases h9 : name = rhBarRates
  · rw [if_pos h9]
    exact Or.inl ⟨barRates, by simp [builders], rfl⟩
  rw [if_neg h9]
  by_cases h10 : name = rhTableDisk
  · rw [if_pos h10]
    exact Or.inl ⟨tableDisk, by simp [builders], rfl⟩
  rw [if_neg h10]
  by_cases h11 : name = rhTable
  · rw [if_pos h11]
    exact Or.inl ⟨table, by simp [builders], rfl⟩
  rw [if_neg h11]
  exact Or.inr rfl

/-- C13 (as stated, refuted): the Load call fails with an error and both the
load builder and CreateWidgets return that very error, with nothing about
the widget added to it. -/
theorem fetch_error_returned_unwrapped :
    errOf (downHost.Load freshSvc.state).1 = some ⟨"ssh: handshake failed"⟩
      ∧ (boxLoad ⟨none, downHost⟩ ⟨"rh.box_load", []⟩ freshSvc).err
          = errOf (downHost.Load freshSvc.state).1
      ∧ (CreateWidgets ⟨none, downHost⟩ ⟨"rh.box_load", []⟩ ⟨1⟩ freshSvc).2.err
          = errOf (downHost.Load freshSvc.state).1 := by
  decide

/-- C13 (amended): when a metrics-service call made during a run fails with
the error e, the error returned by the builder, and by CreateWidgets, is e
itself, unchanged: it is not wrapped and carries no widget identity. -/
theorem fetch_error_returned_as_is {σ : Type} [CaseTables] (ms : HostWidget σ)
    (widget : Widget) (tui : Tui) (s : Svc σ) (r : CallRecord) (e : GoError)
    (he : r.err = some e) :
    (∀ b ∈ builders, r ∈ newCalls s (b ms widget s) → (b ms widget s).err = some e)
      ∧ (r ∈ newCalls s (CreateWidgets ms widget tui s).2 →
          (CreateWidgets ms widget tui s).2.err = some e) := by
  constructor
  · intro b hb hr
    exact ((builder_failClosed b hb ms widget s).2 r hr e he).2
  · intro hr
    rcases createWidgets_cases ms widget tui s with ⟨b, hb, hc⟩ | hc
    · rw [hc] at hr ⊢
      exact ((builder_failClosed b hb _ widget s).2 r hr e he).2
    · rw [hc] at hr
      simp [newCalls, Built.fail] at hr

theorem fetch_error_returned_as_is_witness :
    (⟨Call.Load, some ⟨"ssh: handshake failed"⟩⟩ : CallRecord)
        ∈ newCalls freshSvc
            (CreateWidgets ⟨none, downHost⟩ ⟨"lh.box_load", []⟩ ⟨1⟩ freshSvc).2
      ∧ (CreateWidgets ⟨none, downHost⟩ ⟨"lh.box_load", []⟩ ⟨1⟩ freshSvc).2.err
          = some ⟨"ssh: handshake failed"⟩ :=
  have hr : (⟨Call.Load, some ⟨"ssh: handshake failed"⟩⟩ : CallRecord)
      ∈ newCalls freshSvc
          (CreateWidgets ⟨none, downHost⟩ ⟨"lh.box_load", []⟩ ⟨1⟩ freshSvc).2 := by
    decide
  ⟨hr, (fetch_error_returned_as_is ⟨none, downHost⟩ ⟨"lh.box_load", []⟩ ⟨1⟩ freshSvc
    ⟨Call.Load, some ⟨"ssh: handshake failed"⟩⟩ ⟨"ssh: handshake failed"⟩ rfl).2 hr⟩

/-! ## Rates bar -/

theorem truncRat_neg (q : ℚ) : truncRat (-q) = -truncRat q := by
  unfold truncRat
  rcases lt_trichotomy q 0 with h | h | h
  · rw [if_pos (by linarith), if_neg (by linarith), Int.floor_neg]
  · subst h; simp
  · rw [if_neg (by linarith), if_pos (by linarith), Int.ceil_neg]

theorem floor_dyadic_ofNat (m k : Nat) :
    ⌊(m : ℚ) * (2 : ℚ) ^ (Int.ofNat k)⌋ = ((m * 2 ^ k : Nat) : Int) := by
  have : (m : ℚ) * (2 : ℚ) ^ (Int.ofNat k) = ((m * 2 ^ k : Nat) : ℚ) := by
    rw [Int.ofNat_eq_coe, zpow_natCast]; push_cast; ring
  rw [this, Int.floor_natCast]

theorem floor_dyadic_negSucc (m k : Nat) :
    ⌊(m : ℚ) * (2 : ℚ) ^ (Int.negSucc k)⌋ = ((m / 2 ^ (k + 1) : Nat) : Int) := by
  have : (m : ℚ) * (2 : ℚ) ^ (Int.negSucc k) = (m : ℚ) / ((2 ^ (k + 1) : Nat) : ℚ) := by
    rw [zpow_negSucc]; push_cast; rw [div_eq_mul_inv]
  rw [this, Rat.floor_natCast_div_natCast]
  rfl

theorem truncRat_signed (neg : Bool) (x : ℚ) (hx : 0 ≤ x) :
    truncRat ((if neg then -1 else 1) * x) = if neg then -⌊x⌋ else ⌊x⌋ := by
  cases neg with
  | true =>
    simp only [if_true]
    rw [neg_one_mul, truncRat_neg, truncRat, if_pos hx]
  | false =>
    simp only [Bool.false_eq_true, if_false]
    rw [one_mul, truncRat, if_pos hx]

/-- The conversion `int(f)` of a finite float whose truncation fits `int64`
is the truncation toward zero of its value. -/
theorem toInt_eq_truncRat (neg : Bool) (m : Nat) (e : Int)
    (hlo : -(2 : Int) ^ 63 ≤ truncRat (Float64.toRat (Float64.finite neg m e)))
    (hhi : truncRat (Float64.toRat (Float64.finite neg m e)) < (2 : Int) ^ 63) :
    Float64.toInt (Float64.finite neg m e)
      = truncRat (Float64.toRat (Float64.finite neg m e)) := by
  cases e with
  | ofNat k =>
    have hv : truncRat (Float64.toRat (Float64.finite neg m (Int.ofNat k)))
        = if neg then -((m * 2 ^ k : Nat) : Int) else ((m * 2 ^ k : Nat) : Int) := by
      rw [Float64.toRat, truncRat_signed neg _ (by positivity), floor_dyadic_ofNat]
    rw [hv] at hlo hhi ⊢
    simp only [Float64.toInt]
    rw [if_pos ⟨hlo, hhi⟩]
  | negSucc k =>
    have hv : truncRat (Float64.toRat (Float64.finite neg m (Int.negSucc k)))
        = if neg then -((m / 2 ^ (k + 1) : Nat) : Int)
          else ((m / 2 ^ (k + 1) : Nat) : Int) := by
      rw [Float64.toRat, truncRat_signed neg _ (by positivity), floor_dyadic_negSucc]
    rw [hv] at hlo hhi ⊢
    simp only [Float64.toInt]
    rw [if_pos ⟨hlo, hhi⟩]

/-- C14: the rates-bar builder calls SwapRate, then CPURate on the state
left by SwapRate, then MemoryRate on the state left by CPURate, and stops at
the first failing call; on success its RenderJob calls AddBarChart with the
values int(cpu), int(memory), int(swap), each the truncation toward zero of
the rate, under the labels CPU, Memory, Swap. -/
theorem barRates_order_and_values {σ : Type} (ms : HostWidget σ) (w : Widget) (s : Svc σ) :
    (newCalls s (barRates ms w s)
        = match (ms.service.SwapRate s.state).1 with
          | Except.error e => [⟨Call.SwapRate, some e⟩]
          | Except.ok _ =>
            match (ms.service.CPURate (ms.service.SwapRate s.state).2).1 with
            | Except.error e => [⟨Call.SwapRate, none⟩, ⟨Call.CPURate, some e⟩]
            | Except.ok _ =>
              [⟨Call.SwapRate, none⟩, ⟨Call.CPURate, none⟩,
                ⟨Call.MemoryRate,
                  errOf (ms.service.MemoryRate
                    (ms.service.CPURate (ms.service.SwapRate s.state).2).2).1⟩])
      ∧ ((newCalls s (barRates ms w s)).map CallRecord.call
          <+: [Call.SwapRate, Call.CPURate, Call.MemoryRate])
      ∧ (∀ job, (barRates ms w s).f = some job →
          ∃ swapRate cpuRate memoryRate title,
            (ms.service.SwapRate s.state).1 = Except.ok swapRate
              ∧ (ms.service.CPURate (ms.service.SwapRate s.state).2).1 = Except.ok cpuRate
              ∧ (ms.service.MemoryRate
                  (ms.service.CPURate (ms.service.SwapRate s.state).2).2).1
                  = Except.ok memoryRate
              ∧ job = RenderJob.AddBarChart
                  [Float64.toInt cpuRate, Float64.toInt memoryRate, Float64.toInt swapRate]
                  ["CPU", "Memory", "Swap"] title w.Options)
      ∧ (∀ (neg : Bool) (m : Nat) (e : Int),
          -(2 : Int) ^ 63 ≤ truncRat (Float64.toRat (Float64.finite neg m e)) →
          truncRat (Float64.toRat (Float64.finite neg m e)) < (2 : Int) ^ 63 →
            Float64.toInt (Float64.finite neg m e)
              = truncRat (Float64.toRat (Float64.finite neg m e))) := by
  have hc := barRates_calls ms w s
  refine ⟨hc, ?_, ?_, toInt_eq_truncRat⟩
  · rw [hc]
    split
    · exact ⟨[Call.CPURate, Call.MemoryRate], rfl⟩
    · split
      · exact ⟨[Call.MemoryRate], rfl⟩
      · exact ⟨[], rfl⟩
  · intro job hj
    obtain ⟨v1, v2, v3, h1, h2, h3, hjob⟩ := barRates_job ms w s job hj
    exact ⟨v1, v2, v3, _, h1, h2, h3, hjob⟩

theorem barRates_order_and_values_witness :
    (barRates ⟨none, sampleHost⟩ ⟨"rh.bar_rates", []⟩ freshSvc).f
        = some (RenderJob.AddBarChart [42, 61, 3] ["CPU", "Memory", "Swap"]
            " Resources usage (%) " [])
      ∧ (newCalls freshSvc (barRates ⟨none, sampleHost⟩ ⟨"rh.bar_rates", []⟩ freshSvc)).map
            CallRecord.call
          <+: [Call.SwapRate, Call.CPURate, Call.MemoryRate] :=
  ⟨by decide,
    (barRates_order_and_values ⟨none, sampleHost⟩ ⟨"rh.bar_rates", []⟩ freshSvc).2.1⟩

/-! ## Units -/

theorem unitOf_present (w : Widget) (d v : String)
    (h : w.Options.lookup optionUnit = some v) : unitOf w d = v := by
  simp [unitOf, h]

theorem unitOf_absent (w : Widget) (d : String)
    (h : w.Options.lookup optionUnit = none) : unitOf w d = d := by
  simp [unitOf, h]

/-- C15: the net-io, disk-io and memory-bar builders resolve the unit to the
unit option when the key is present and to "kb" otherwise, pass it unchanged
to the service and, with no title option, use the default title built from
the unit in upper case; the disk-table builder resolves the unit to the
option or to "gb" and passes it unchanged to the service. -/
theorem builder_unit {σ : Type} [CaseTables] (ms : HostWidget σ) (w : Widget) (s : Svc σ) :
    (∀ d, (∀ v, w.Options.lookup optionUnit = some v → unitOf w d = v)
        ∧ (w.Options.lookup optionUnit = none → unitOf w d = d))
      ∧ (∃ e, newCalls s ( boxNetIO ms w s) = [⟨ Call.NetIO (unitOf w "kb"), e⟩])
      ∧ (∃ e, newCalls s ( boxDiskIO ms w s) = [⟨ Call.DiskIO (unitOf w "kb"), e⟩])
      ∧ (∃ e keys, newCalls s (barMemory ms w s) = [⟨Call.Memory keys (unitOf w "kb"), e⟩])
      ∧ (∃ e, newCalls s (tableDisk ms w s)
          = [⟨Call.Disk ["Filesystem", "Size", "Used", "Available", "Use%", "Mount"]
              (unitOf w "gb"), e⟩])
      ∧ (w.Options.lookup optionTitle = none →
          (∀ job, ( boxNetIO ms w s).f = some job →
              job.title = " Net I/O (" ++ strings.ToUpper (unitOf w "kb") ++ ") ")
            ∧ (∀ job, ( boxDiskIO ms w s).f = some job →
              job.title = " Disk I/O (" ++ strings.ToUpper (unitOf w "kb") ++ ") ")
            ∧ (∀ job, (barMemory ms w s).f = some job →
              job.title = " Memory (" ++ strings.ToUpper (unitOf w "kb") ++ ") ")) := by
  refine ⟨fun d => ⟨fun v h => unitOf_present w d v h, unitOf_absent w d⟩, ?_, ?_, ?_, ?_, ?_⟩
  · rw [boxNetIO_shape, newCalls_fetch_ok]; exact ⟨_, rfl⟩
  · rw [boxDiskIO_shape, newCalls_fetch_ok]; exact ⟨_, rfl⟩
  · obtain ⟨e, he⟩ := barMemory_calls ms w s
    exact ⟨e, _, he⟩
  · rw [tableDisk_shape, newCalls_fetch_ok]; exact ⟨_, rfl⟩
  · intro ht
    refine ⟨?_, ?_, ?_⟩
    · intro job hj
      have := title_of_job
        ( boxNetIO, fun w => " Net I/O (" ++ strings.ToUpper (unitOf w "kb") ++ ") ")
        (by simp [defaultTitles]) ms w s job hj
      rw [this, ht]; rfl
    · intro job hj
      have := title_of_job
        ( boxDiskIO, fun w => " Disk I/O (" ++ strings.ToUpper (unitOf w "kb") ++ ") ")
        (by simp [defaultTitles]) ms w s job hj
      rw [this, ht]; rfl
    · intro job hj
      have := title_of_job
        (barMemory, fun w => " Memory (" ++ strings.ToUpper (unitOf w "kb") ++ ") ")
        (by simp [defaultTitles]) ms w s job hj
      rw [this, ht]; rfl

theorem builder_unit_witness :
    List.lookup optionUnit [("unit", "mb")] = some "mb"
      ∧ unitOf ⟨"rh.box_net_io", [("unit", "mb")]⟩ "kb" = "mb"
      ∧ ( boxNetIO ⟨none, sampleHost⟩ ⟨"rh.box_net_io", [("unit", "mb")]⟩ freshSvc).f
          = some (RenderJob.AddTextBox "12 / 7" " Net I/O (MB) " [("unit", "mb")])
      ∧ ∃ e, newCalls freshSvc
          ( boxNetIO ⟨none, sampleHost⟩ ⟨"rh.box_net_io", [("unit", "mb")]⟩ freshSvc)
          = [⟨ Call.NetIO (unitOf ⟨"rh.box_net_io", [("unit", "mb")]⟩ "kb"), e⟩] :=
  have hk : List.lookup optionUnit [("unit", "mb")] = some "mb" := by decide
  have t := builder_unit ⟨none, sampleHost⟩ ⟨"rh.box_net_io", [("unit", "mb")]⟩ freshSvc
  ⟨hk, (t.1 "kb").1 "mb" hk, by decide, t.2.1⟩

/-! ## Invoking a RenderJob -/

theorem fetch_f {σ α : Type} (s : Svc σ) (c : Call) (m : σ → Except GoError α × σ)
    (k : α → Svc σ → Built σ) :
    (fetch s c m k).f
      = thenOk (m s.state).1 fun v => (k v ⟨(m s.state).2, s.trace ++ [⟨c, none⟩]⟩).f := by
  rcases h : (m s.state).1 with e | v
  · rw [fetch_error s c m k e h]; rfl
  · rw [fetch_ok s c m k v h]; rfl

/-- What each builder returns as `f`. -/
theorem builder_f_eq {σ : Type} [CaseTables]
    (p : (HostWidget σ → Widget → Svc σ → Built σ)
      × (HostWidget σ → Widget → Svc σ → Option RenderJob))
    (hp : p ∈ expectedJobs) (ms : HostWidget σ) (w : Widget) (s : Svc σ) :
    (p.1 ms w s).f = p.2 ms w s := by
  simp only [expectedJobs, List.mem_cons, List.mem_singleton, List.not_mem_nil,
    or_false] at hp
  rcases hp with rfl | rfl | rfl | rfl | rfl | rfl | rfl | rfl | rfl | rfl | rfl | rfl
  · dsimp only; rw [boxUptime_shape, fetch_f]; rfl
  · dsimp only; rw [boxLoad_shape, fetch_f]; rfl
  · dsimp only; rw [boxProcesses_shape, fetch_f]; rfl
  · dsimp only; rw [barMemory_shape, fetch_f]; rfl
  · dsimp only; rw [boxCPURate_shape, fetch_f]; rfl
  · dsimp only; rw [boxMemRate_shape, fetch_f]; rfl
  · dsimp only; rw [boxSwapRate_shape, fetch_f]; rfl
  · dsimp only; rw [boxNetIO_shape, fetch_f]; rfl
  · dsimp only; rw [boxDiskIO_shape, fetch_f]; rfl
  · dsimp only; rw [barRates_shape, fetch_f]
    simp only [fetch_f]
    rfl
  · dsimp only; rw [tableDisk_shape, fetch_f]; rfl
  · dsimp only; rw [table_shape, fetch_f]; rfl

theorem thenOk_some {α : Type} (r : Except GoError α) (k : α → Option RenderJob)
    (job : RenderJob) (h : thenOk r k = some job) : ∃ v, r = Except.ok v ∧ k v = some job := by
  cases r with
  | error e => simp [thenOk] at h
  | ok v => exact ⟨v, rfl, h⟩

/-- The options a builder passes on are the widget's own. -/
theorem options_of_job {σ : Type} [CaseTables]
    (p : (HostWidget σ → Widget → Svc σ → Built σ)
      × (HostWidget σ → Widget → Svc σ → Option RenderJob))
    (hp : p ∈ expectedJobs) (ms : HostWidget σ) (w : Widget) (s : Svc σ) (job : RenderJob)
    (h : p.2 ms w s = some job) : job.options = w.Options := by
  simp only [expectedJobs, List.mem_cons, List.mem_singleton, List.not_mem_nil,
    or_false] at hp
  rcases hp with rfl | rfl | rfl | rfl | rfl | rfl | rfl | rfl | rfl | rfl | rfl | rfl
  all_goals
    dsimp only at h
    obtain ⟨_, _, h⟩ := thenOk_some _ _ _ h
    first
    | (simp only [Option.some.injEq] at h; rw [← h]; rfl)
    | (obtain ⟨_, _, h⟩ := thenOk_some _ _ _ h
       obtain ⟨_, _, h⟩ := thenOk_some _ _ _ h
       simp only [Option.some.injEq] at h; rw [← h]; rfl)

theorem invoke_svc {σ τ : Type} (job : RenderJob) (sink : Sink τ) (env : Shared σ)
    (svc : Svc σ) (t : Screen τ) : (job.invoke sink env svc t).2.1 = svc := by
  cases job <;> rfl

theorem invoke_calls {σ τ : Type} (job : RenderJob) (sink : Sink τ) (env : Shared σ)
    (svc : Svc σ) (t : Screen τ) :
    (job.invoke sink env svc t).2.2.calls = t.calls ++ [job.callIn env] := by
  cases job <;> rfl

theorem invokeEach_spec {σ τ : Type} (job : RenderJob) (sink : Sink τ)
    (envs : List (Shared σ)) (svc : Svc σ) (t : Screen τ) :
    (job.invokeEach sink envs svc t).1 = svc
      ∧ (job.invokeEach sink envs svc t).2.calls = t.calls ++ envs.map job.callIn := by
  induction envs generalizing svc t with
  | nil => simp [RenderJob.invokeEach]
  | cons env envs ih =>
    rw [RenderJob.invokeEach]
    obtain ⟨h1, h2⟩ := ih (job.invoke sink env svc t).2.1 (job.invoke sink env svc t).2.2
    rw [h1, h2, invoke_svc, invoke_calls]
    refine ⟨rfl, ?_⟩
    rw [List.map_cons, List.append_assoc]
    rfl

theorem withOptions_self (job : RenderJob) : job.withOptions job.options = job := by
  cases job <;> rfl

theorem withOptions_options (job : RenderJob) (now : Options) :
    (job.withOptions now).options = now := by
  cases job <;> rfl

theorem withOptions_title (job : RenderJob) (now : Options) :
    (job.withOptions now).title = job.title := by
  cases job <;> rfl

theorem withOptions_withOptions (job : RenderJob) (o1 o2 : Options) :
    (job.withOptions o1).withOptions o2 = job.withOptions o2 := by
  cases job <;> rfl

/-- The receiver after `CreateWidgets`: the sink given is stored in it. -/
theorem createWidgets_receiver {σ : Type} [CaseTables] (ms : HostWidget σ) (widget : Widget)
    (tui : Tui) (s : Svc σ) :
    (CreateWidgets ms widget tui s).1 = ⟨some tui, ms.service⟩ := by
  rcases createWidgets_cases ms widget tui s with ⟨b, _, h⟩ | h <;> rw [h]

/-- C16 (as stated, refuted): the load builder, reached through CreateWidgets
with the sink 1 and the option map holding border = blue, returns a RenderJob;
invoked as things stand it sends AddTextBox with border = blue to the sink 1;
invoked again after the caller has set border to red in that same map it
sends border = red; invoked once more after a second CreateWidgets has
stored the sink 2 in the receiver it sends the call to the sink 2. The three
calls differ: the option map is not the original one unchanged, and the
invocations do not issue the same call each time. -/
theorem renderJob_reads_shared_state :
    (CreateWidgets ⟨none, sampleHost⟩ ⟨"rh.box_load", [("border", "blue")]⟩ ⟨1⟩ freshSvc).2.f
        = some (RenderJob.AddTextBox "0.42 0.30 0.25" " Load " [("border", "blue")])
      ∧ (CreateWidgets ⟨none, sampleHost⟩ ⟨"rh.box_load", [("border", "blue")]⟩ ⟨1⟩
            freshSvc).1.tui = some ⟨1⟩
      ∧ (CreateWidgets ⟨some ⟨1⟩, sampleHost⟩ ⟨"rh.box_processes", []⟩ ⟨2⟩ freshSvc).1.tui
          = some ⟨2⟩
      ∧ ((RenderJob.AddTextBox "0.42 0.30 0.25" " Load " [("border", "blue")]).invokeEach
            sampleSink
            [⟨⟨some ⟨1⟩, sampleHost⟩, [("border", "blue")]⟩,
              ⟨⟨some ⟨1⟩, sampleHost⟩, [("border", "red")]⟩,
              ⟨⟨some ⟨2⟩, sampleHost⟩, [("border", "red")]⟩] freshSvc ⟨0, []⟩).2.calls
          = [⟨some ⟨1⟩, RenderJob.AddTextBox "0.42 0.30 0.25" " Load " [("border", "blue")]⟩,
              ⟨some ⟨1⟩, RenderJob.AddTextBox "0.42 0.30 0.25" " Load " [("border", "red")]⟩,
              ⟨some ⟨2⟩, RenderJob.AddTextBox "0.42 0.30 0.25" " Load " [("border", "red")]⟩]
      ∧ (⟨some ⟨1⟩, RenderJob.AddTextBox "0.42 0.30 0.25" " Load " [("border", "blue")]⟩
            : SinkCall)
          ≠ ⟨some ⟨1⟩, RenderJob.AddTextBox "0.42 0.30 0.25" " Load " [("border", "red")]⟩
      ∧ (⟨some ⟨1⟩, RenderJob.AddTextBox "0.42 0.30 0.25" " Load " [("border", "red")]⟩
            : SinkCall)
          ≠ ⟨some ⟨2⟩, RenderJob.AddTextBox "0.42 0.30 0.25" " Load " [("border", "red")]⟩
      ∧ List.lookup "border" [("border", "red")] ≠ List.lookup "border" [("border", "blue")] := by
  refine ⟨by decide, ?_, ?_, by decide, by decide, by decide, by decide⟩
  · rw [createWidgets_receiver]
  · rw [createWidgets_receiver]

/-- C16 (amended): for each of the twelve builders (the first components of
expectedJobs are exactly the builders), a returned RenderJob holds the title
resolved at construction and the snapshot fetched at construction, and the
option map it was built from. Invoking it makes no metrics-service call and
sends the sink exactly one call: on the receiver that ms.tui holds at the
time of the invocation, with that title and snapshot, and with the caller's
option map as it is at the time of the invocation, all keys included. The
map is shared, not copied: the call carries the original contents exactly
when the map still holds them. Invoked once per element of a list of states
of the shared objects, the RenderJob sends one call per element, each
following the state it ran in; n invocations with the shared objects left as
they are send the same call n times. After CreateWidgets the receiver holds
the sink that was passed. -/
theorem renderJob_invocation {σ τ : Type} [CaseTables] :
    (expectedJobs.map Prod.fst
        = (builders : List (HostWidget σ → Widget → Svc σ → Built σ)))
      ∧ (∀ p ∈ (expectedJobs : List ((HostWidget σ → Widget → Svc σ → Built σ)
            × (HostWidget σ → Widget → Svc σ → Option RenderJob))),
          ∀ (ms : HostWidget σ) (w : Widget) (s : Svc σ) (job : RenderJob),
            (p.1 ms w s).f = some job →
              p.2 ms w s = some job
                ∧ job.options = w.Options
                ∧ ∀ (sink : Sink τ) (env : Shared σ) (svc : Svc σ) (t : Screen τ),
                    (job.invoke sink env svc t).2.1 = svc
                      ∧ (job.invoke sink env svc t).2.2.calls
                          = t.calls ++ [⟨env.ms.tui, job.withOptions env.options⟩]
                      ∧ (env.options = w.Options ↔ job.withOptions env.options = job)
                      ∧ (∀ envs : List (Shared σ),
                          (job.invokeEach sink envs svc t).1 = svc
                            ∧ (job.invokeEach sink envs svc t).2.calls
                                = t.calls ++ envs.map fun e =>
                                    ⟨e.ms.tui, job.withOptions e.options⟩)
                      ∧ ∀ n, (job.invokeEach sink (List.replicate n env) svc t).2.calls
                          = t.calls
                            ++ List.replicate n ⟨env.ms.tui, job.withOptions env.options⟩)
      ∧ (∀ (job : RenderJob) (now : Options),
          (job.withOptions now).title = job.title
            ∧ (job.withOptions now).options = now
            ∧ (job.withOptions now).withOptions job.options = job)
      ∧ ∀ (ms : HostWidget σ) (w : Widget) (tui : Tui) (s : Svc σ),
          (CreateWidgets ms w tui s).1.tui = some tui := by
  refine ⟨rfl, ?_, ?_, ?_⟩
  · intro p hp ms w s job h
    have he : p.2 ms w s = some job := by rw [← builder_f_eq p hp ms w s]; exact h
    have ho : job.options = w.Options := options_of_job p hp ms w s job he
    refine ⟨he, ho, ?_⟩
    intro sink env svc t
    refine ⟨invoke_svc job sink env svc t, invoke_calls job sink env svc t, ?_, ?_, ?_⟩
    · constructor
      · intro h1
        rw [h1, ← ho]
        exact withOptions_self job
      · intro h1
        rw [← ho, ← h1]
        exact (withOptions_options job env.options).symm
    · intro envs
      exact invokeEach_spec job sink envs svc t
    · intro n
      rw [(invokeEach_spec job sink (List.replicate n env) svc t).2, List.map_replicate]
      rfl
  · intro job now
    refine ⟨withOptions_title job now, withOptions_options job now, ?_⟩
    rw [withOptions_withOptions]
    exact withOptions_self job
  · intro ms w tui s
    rw [createWidgets_receiver]

theorem renderJob_invocation_witness :
    (boxLoad ⟨some ⟨1⟩, sampleHost⟩ ⟨"rh.box_load", [("border", "blue")]⟩ freshSvc).f
        = some (RenderJob.AddTextBox "0.42 0.30 0.25" " Load " [("border", "blue")])
      ∧ ((RenderJob.AddTextBox "0.42 0.30 0.25" " Load " [("border", "blue")]).invokeEach
            sampleSink
            (List.replicate 2 ⟨⟨some ⟨1⟩, sampleHost⟩, [("border", "blue")]⟩)
            freshSvc ⟨0, []⟩).2.calls
          = [] ++ List.replicate 2
              ⟨some ⟨1⟩, (RenderJob.AddTextBox "0.42 0.30 0.25" " Load "
                [("border", "blue")]).withOptions [("border", "blue")]⟩ :=
  have hf : (boxLoad ⟨some ⟨1⟩, sampleHost⟩ ⟨"rh.box_load", [("border", "blue")]⟩ freshSvc).f
      = some (RenderJob.AddTextBox "0.42 0.30 0.25" " Load " [("border", "blue")]) := by
    decide
  ⟨hf, (((renderJob_invocation.2.1 _ (List.mem_cons_of_mem _ (List.mem_cons_self _ _))
    ⟨some ⟨1⟩, sampleHost⟩ ⟨"rh.box_load", [("border", "blue")]⟩ freshSvc _ hf).2.2
      sampleSink ⟨⟨some ⟨1⟩, sampleHost⟩, [("border", "blue")]⟩ freshSvc ⟨0, []⟩).2.2.2.2 2)⟩

/-! ## Rate texts -/

theorem digit_isDigit (k : Nat) (hk : k < 10) : (Char.ofNat (k + 48)).isDigit = true := by
  interval_cases k <;> rfl

theorem fmtDigits_isDigit (fuel v : Nat) (acc : List Char)
    (hacc : ∀ c ∈ acc, c.isDigit = true) : ∀ c ∈ fmtDigits fuel v acc, c.isDigit = true := by
  induction fuel generalizing v acc with
  | zero => simpa [fmtDigits] using hacc
  | succ f ih =>
    rw [fmtDigits]
    by_cases hv : v = 0
    · rw [if_pos hv]; exact hacc
    · rw [if_neg hv]
      apply ih
      intro c hc
      rcases List.mem_cons.1 hc with rfl | hc
      · exact digit_isDigit _ (Nat.mod_lt _ (by decide))
      · exact hacc c hc

theorem fmtInt_isDigit (v : Nat) : ∀ c ∈ fmtInt v, c.isDigit = true := by
  unfold fmtInt
  by_cases hv : v = 0
  · rw [if_pos hv]; intro c hc; simp at hc; subst hc; rfl
  · rw [if_neg hv]; exact fmtDigits_isDigit _ _ _ (by simp)

theorem fmtDigits_length (fuel v : Nat) (acc : List Char) :
    acc.length ≤ (fmtDigits fuel v acc).length := by
  induction fuel generalizing v acc with
  | zero => simp [fmtDigits]
  | succ f ih =>
    rw [fmtDigits]
    by_cases hv : v = 0
    · rw [if_pos hv]
    · rw [if_neg hv]
      exact le_trans (by simp) (ih (v / 10) _)

theorem fmtInt_ne_nil (v : Nat) : fmtInt v ≠ [] := by
  unfold fmtInt
  by_cases hv : v = 0
  · rw [if_pos hv]; simp
  · rw [if_neg hv, fmtDigits, if_neg hv]
    intro h
    have := fmtDigits_length v (v / 10) [Char.ofNat (v % 10 + 48)]
    rw [h] at this
    simp at this

/-- The text of a finite float with the sign bit clear. -/
theorem formatFloat_percent (m : Nat) (e : Int) :
    PercentText (strconv.FormatFloat_f2 (Float64.finite false m e) ++ " %")
      (Float64.hundredths m e) := by
  refine ⟨fmtInt (Float64.hundredths m e / 100),
    Char.ofNat (Float64.hundredths m e % 100 / 10 + 48),
    Char.ofNat (Float64.hundredths m e % 10 + 48), ?_, fmtInt_ne_nil _, fmtInt_isDigit _,
    digit_isDigit _ (by omega), digit_isDigit _ (by omega), fmtInt_eq_repr _, rfl, rfl⟩
  simp [strconv.FormatFloat_f2, String.data_append]

/-- The hundredths printed are within half a hundredth of the value. -/
theorem hundredths_nearest (m : Nat) (e : Int) :
    |100 * Float64.toRat (Float64.finite false m e) - (Float64.hundredths m e : ℚ)|
      ≤ 1 / 2 := by
  cases e with
  | ofNat k =>
    have : 100 * Float64.toRat (Float64.finite false m (Int.ofNat k))
        - ((Float64.hundredths m (Int.ofNat k) : Nat) : ℚ) = 0 := by
      simp only [Float64.toRat, Float64.hundredths, Bool.false_eq_true, if_false]
      rw [Int.ofNat_eq_coe, zpow_natCast]
      push_cast
      ring
    rw [this]
    norm_num
  | negSucc k =>
    have hD : (0 : ℚ) < ((2 ^ (k + 1) : Nat) : ℚ) := by positivity
    have hval : 100 * Float64.toRat (Float64.finite false m (Int.negSucc k))
        = ((m * 100 : Nat) : ℚ) / ((2 ^ (k + 1) : Nat) : ℚ) := by
      simp only [Float64.toRat, Bool.false_eq_true, if_false]
      rw [zpow_negSucc]
      push_cast
      field_simp
      ring
    have hsplit : ((m * 100 : Nat) : ℚ)
        = ((2 ^ (k + 1) : Nat) : ℚ) * ((m * 100 / 2 ^ (k + 1) : Nat) : ℚ)
          + ((m * 100 % 2 ^ (k + 1) : Nat) : ℚ) := by
      have := Nat.div_add_mod (m * 100) (2 ^ (k + 1))
      exact_mod_cast this.symm
    have hr0 : (0 : ℚ) ≤ ((m * 100 % 2 ^ (k + 1) : Nat) : ℚ) := by positivity
    have hrlt : ((m * 100 % 2 ^ (k + 1) : Nat) : ℚ) < ((2 ^ (k + 1) : Nat) : ℚ) := by
      exact_mod_cast Nat.mod_lt _ (by positivity)
    rw [hval]
    have hrw : ∀ n : ℚ, ((m * 100 : Nat) : ℚ) / ((2 ^ (k + 1) : Nat) : ℚ) - n
        = (((m * 100 : Nat) : ℚ) - n * ((2 ^ (k + 1) : Nat) : ℚ))
            / ((2 ^ (k + 1) : Nat) : ℚ) := by
      intro n; field_simp; ring
    rw [hrw, abs_div, abs_of_pos hD, div_le_iff₀ hD, abs_le]
    simp only [Float64.hundredths]
    by_cases hc : 2 ^ (k + 1) < 2 * (m * 100 % 2 ^ (k + 1))
        ∨ (2 * (m * 100 % 2 ^ (k + 1)) = 2 ^ (k + 1) ∧ m * 100 / 2 ^ (k + 1) % 2 = 1)
    · rw [if_pos hc]
      have h2 : ((2 ^ (k + 1) : Nat) : ℚ) ≤ 2 * ((m * 100 % 2 ^ (k + 1) : Nat) : ℚ) := by
        rcases hc with h | ⟨h, _⟩
        · exact_mod_cast h.le
        · exact_mod_cast h.ge
      push_cast at hsplit h2 hrlt hr0 ⊢
      constructor <;> nlinarith
    · rw [if_neg hc]
      have h2 : 2 * ((m * 100 % 2 ^ (k + 1) : Nat) : ℚ) ≤ ((2 ^ (k + 1) : Nat) : ℚ) := by
        have : ¬ 2 ^ (k + 1) < 2 * (m * 100 % 2 ^ (k + 1)) := fun h => hc (Or.inl h)
        exact_mod_cast not_lt.1 this
      push_cast at hsplit h2 hrlt hr0 ⊢
      constructor <;> nlinarith

theorem percentText_pattern (content : String) (n : Nat) (h : PercentText content n) :
    PercentPattern content := by
  obtain ⟨ds, d1, d2, h1, h2, h3, h4, h5, _⟩ := h
  exact ⟨ds, d1, d2, h1, h2, h3, h4, h5⟩

/-- A text that starts with a minus sign does not match the pattern. -/
theorem not_pattern_of_minus (content : String) (rest : List Char)
    (h : content.data = '-' :: rest) : ¬ PercentPattern content := by
  rintro ⟨ds, d1, d2, h1, h2, h3, _⟩
  cases ds with
  | nil => exact h2 rfl
  | cons c cs =>
    rw [h, List.cons_append] at h1
    have hc : c = '-' := (List.cons.inj h1).1.symm
    have := h3 c (List.mem_cons_self _ _)
    rw [hc] at this
    exact absurd this (by decide)

theorem hundredths_zero (e : Int) : Float64.hundredths 0 e = 0 := by
  cases e with
  | ofNat k => simp [Float64.hundredths]
  | negSucc k =>
    have hpos : 0 < 2 ^ (k + 1) := by positivity
    simp only [Float64.hundredths, Nat.zero_mul, Nat.zero_div, Nat.zero_mod, Nat.mul_zero]
    rw [if_neg]
    rintro (h | ⟨h, _⟩)
    · exact absurd h (Nat.not_lt_zero _)
    · omega

/-- A float with the sign bit set and a value of at least zero is negative
zero. -/
theorem negative_zero_of_nonneg (m : Nat) (e : Int)
    (h : 0 ≤ Float64.toRat (Float64.finite true m e)) : m = 0 := by
  simp only [Float64.toRat, if_true] at h
  have hp : (0 : ℚ) < (2 : ℚ) ^ e := zpow_pos (by norm_num) e
  by_contra hm
  have hm1 : (0 : ℚ) < (m : ℚ) := by exact_mod_cast Nat.pos_of_ne_zero hm
  have := mul_pos hm1 hp
  linarith

/-- A rate of at most 100 prints at most 10000 hundredths. -/
theorem hundredths_le (m : Nat) (e : Int)
    (h : Float64.toRat (Float64.finite false m e) ≤ 100) :
    Float64.hundredths m e ≤ 10000 := by
  have hn := (abs_le.1 (hundredths_nearest m e)).1
  have hq : ((Float64.hundredths m e : Nat) : ℚ) < 10001 := by linarith
  have : Float64.hundredths m e < 10001 := by exact_mod_cast hq
  omega

/-- The text `strconv.FormatFloat(f, 'f', 2, 64) + " %"` of a finite float. -/
theorem formatFloat_rateText (neg : Bool) (m : Nat) (e : Int) :
    RateText neg m e (strconv.FormatFloat_f2 (Float64.finite neg m e) ++ " %") := by
  refine ⟨strconv.FormatFloat_f2 (Float64.finite false m e) ++ " %", ?_,
    formatFloat_percent m e⟩
  cases neg <;> simp [strconv.FormatFloat_f2, String.data_append]

/-- What a `RateText` is in each case of the sign bit. -/
theorem rateText_cases (neg : Bool) (m : Nat) (e : Int) (content : String)
    (h : RateText neg m e content) :
    (PercentPattern content ↔ neg = false)
      ∧ (neg = false → PercentText content (Float64.hundredths m e))
      ∧ (neg = true → m = 0 → content = "-0.00 %") := by
  obtain ⟨body, hd, hb⟩ := h
  cases neg with
  | false =>
    have hcb : content = body := String.ext (by simpa using hd)
    refine ⟨⟨fun _ => rfl, fun _ => ?_⟩, fun _ => ?_, fun h => absurd h (by decide)⟩
    · rw [hcb]; exact percentText_pattern body _ hb
    · rw [hcb]; exact hb
  | true =>
    refine ⟨⟨fun hp => ?_, fun h => absurd h (by decide)⟩, fun h => absurd h (by decide),
      fun _ hm => ?_⟩
    · exact absurd hp (not_pattern_of_minus content body.data (by simpa using hd))
    · subst hm
      rw [hundredths_zero] at hb
      obtain ⟨ds, d1, d2, h1, _, _, _, _, h6, h7, h8⟩ := hb
      apply String.ext
      rw [hd, h1, h6, h7, h8]
      decide

/-- C17 (as stated, refuted): negative zero is a float whose value, zero, lies
between 0 and 100; when CPURate returns it with an empty option set, the
CPU-rate builder's RenderJob calls AddTextBox with the content "-0.00 %",
which starts with a minus sign and so is not made of digits, a decimal point,
two digits, a space and the percent sign. -/
theorem negative_zero_prints_minus :
    (0 ≤ Float64.toRat (Float64.finite true 0 0)
        ∧ Float64.toRat (Float64.finite true 0 0) ≤ 100)
      ∧ (negZeroHost.CPURate freshSvc.state).1 = Except.ok (Float64.finite true 0 0)
      ∧ (boxCPURate ⟨none, negZeroHost⟩ ⟨"rh.box_cpu_rate", []⟩ freshSvc).f
          = some (RenderJob.AddTextBox "-0.00 %" " CPU usage " [])
      ∧ ¬ PercentPattern "-0.00 %" := by
  refine ⟨?_, rfl, by decide, not_pattern_of_minus _ _ rfl⟩
  simp [Float64.toRat]

/-- C17 (amended): with an empty option set, when CPURate returns a finite
rate, the CPU-rate builder's RenderJob calls AddTextBox with the title
" CPU usage " and the rate in fixed notation with two decimals followed by
" %": a minus sign when the sign bit of the rate is set, then one or more
digits, a decimal point and exactly two digits (the hundredths of the
magnitude, rounded to the nearest), a space and the percent sign; the
memory-rate and swap-rate builders format their rate the same way under their
own titles. The content matches the pattern without sign exactly when the
sign bit is clear. For a rate whose value lies between 0 and 100 the digits
are at most 100.00, and either the sign bit is clear and the content matches
the pattern, or the rate is negative zero and the content is "-0.00 %". -/
theorem rate_text {σ : Type} (ms : HostWidget σ) (name : String) (s : Svc σ) (neg : Bool)
    (m : Nat) (e : Int) :
    ((ms.service.CPURate s.state).1 = Except.ok (Float64.finite neg m e) →
        ∃ content, (boxCPURate ms ⟨name, []⟩ s).f
            = some (RenderJob.AddTextBox content " CPU usage " [])
          ∧ RateText neg m e content)
      ∧ ((ms.service.MemoryRate s.state).1 = Except.ok (Float64.finite neg m e) →
        ∃ content, (boxMemRate ms ⟨name, []⟩ s).f
            = some (RenderJob.AddTextBox content " Memory usage " [])
          ∧ RateText neg m e content)
      ∧ ((ms.service.SwapRate s.state).1 = Except.ok (Float64.finite neg m e) →
        ∃ content, (boxSwapRate ms ⟨name, []⟩ s).f
            = some (RenderJob.AddTextBox content " Swap usage " [])
          ∧ RateText neg m e content)
      ∧ (∀ content, RateText neg m e content →
          (PercentPattern content ↔ neg = false)
            ∧ (neg = false → PercentText content (Float64.hundredths m e))
            ∧ (0 ≤ Float64.toRat (Float64.finite neg m e) →
                Float64.toRat (Float64.finite neg m e) ≤ 100 →
                  Float64.hundredths m e ≤ 10000
                    ∧ (neg = true → m = 0 ∧ content = "-0.00 %")))
      ∧ |100 * Float64.toRat (Float64.finite false m e) - (Float64.hundredths m e : ℚ)|
          ≤ 1 / 2 := by
  refine ⟨?_, ?_, ?_, ?_, hundredths_nearest m e⟩
  · intro h
    refine ⟨_, ?_, formatFloat_rateText neg m e⟩
    rw [boxCPURate_shape, fetch_ok _ _ _ _ _ h]
    rfl
  · intro h
    refine ⟨_, ?_, formatFloat_rateText neg m e⟩
    rw [boxMemRate_shape, fetch_ok _ _ _ _ _ h]
    rfl
  · intro h
    refine ⟨_, ?_, formatFloat_rateText neg m e⟩
    rw [boxSwapRate_shape, fetch_ok _ _ _ _ _ h]
    rfl
  · intro content hc
    obtain ⟨h1, h2, h3⟩ := rateText_cases neg m e content hc
    refine ⟨h1, h2, ?_⟩
    intro h0 h100
    cases neg with
    | false => exact ⟨hundredths_le m e h100, fun h => absurd h (by decide)⟩
    | true =>
      have hm : m = 0 := negative_zero_of_nonneg m e h0
      refine ⟨?_, fun _ => ⟨hm, h3 rfl hm⟩⟩
      rw [hm, hundredths_zero]
      exact Nat.zero_le _

theorem rate_text_witness :
    (sampleHost.CPURate freshSvc.state).1 = Except.ok (Float64.finite false 42 0)
      ∧ (boxCPURate ⟨none, sampleHost⟩ ⟨"rh.box_cpu_rate", []⟩ freshSvc).f
          = some (RenderJob.AddTextBox "42.00 %" " CPU usage " [])
      ∧ ∃ content, (boxCPURate ⟨none, sampleHost⟩ ⟨"rh.box_cpu_rate", []⟩ freshSvc).f
            = some (RenderJob.AddTextBox content " CPU usage " [])
          ∧ RateText false 42 0 content :=
  ⟨rfl, by decide,
    (rate_text ⟨none, sampleHost⟩ "rh.box_cpu_rate" freshSvc false 42 0).1 rfl⟩

/-! ## The day-extraction loops -/

/-- A loop ends with at most 24 hours left. -/
theorem dayLoop_post (days : Nat) (dur : Int) : (dayLoop days dur).2 ≤ 24 * time.Hour := by
  have hH : time.Hour = 3600000000000 := by decide
  generalize hn : (dur - 24 * time.Hour).toNat = n
  induction n using Nat.strong_induction_on generalizing days dur with
  | _ n ih =>
    by_cases h : 24 * time.Hour < dur
    · rw [dayLoop_gt _ _ h]
      refine ih (dur - 24 * time.Hour - 24 * time.Hour).toNat ?_ (days + 1)
        (dur - 24 * time.Hour) rfl
      rw [hH] at h hn ⊢
      omega
    · rw [dayLoop_le _ _ (not_lt.1 h)]
      exact not_lt.1 h

/-- A loop run on the result of a loop changes nothing. -/
theorem dayLoop_idem (days : Nat) (dur : Int) :
    dayLoop (dayLoop days dur).1 (dayLoop days dur).2 = dayLoop days dur :=
  dayLoop_le _ _ (dayLoop_post days dur)

/-- C18: the second day-extraction loop of formatSeconds is redundant: after
the first loop at most 24 hours are left, so the second loop runs no
iteration and returns the days and the rest as they are, and formatSeconds
returns on every duration the same string as the variant with a single
loop. -/
theorem formatSeconds_second_loop_redundant :
    (∀ dur : Int, formatSeconds dur = formatSecondsOneLoop dur)
      ∧ (∀ (days : Nat) (dur : Int), (dayLoop days dur).2 ≤ 24 * time.Hour)
      ∧ (∀ (days : Nat) (dur : Int),
          dayLoop (dayLoop days dur).1 (dayLoop days dur).2 = dayLoop days dur) := by
  refine ⟨?_, dayLoop_post, dayLoop_idem⟩
  intro dur
  unfold formatSeconds formatSecondsOneLoop
  simp only [dayLoop_idem]

/-! ## Accepted kinds -/

theorem replaceFirst_preimage (l t : List Char)
    (h : strings.replaceFirst ['l', 'h'] ['r', 'h'] l = t) : l = t ∨ l ∈ rhSpots t := by
  induction l generalizing t with
  | nil =>
    left
    simpa [strings.replaceFirst] using h
  | cons c cs ih =>
    rw [strings.replaceFirst] at h
    by_cases hp : ['l', 'h'].isPrefixOf (c :: cs) = true
    · rw [if_pos hp] at h
      right
      obtain ⟨rest, hrest⟩ := List.isPrefixOf_iff_prefix.1 hp
      rw [← hrest] at h ⊢
      subst h
      simp [rhSpots]
    · rw [if_neg hp] at h
      subst h
      rcases ih _ rfl with h | h
      · left; rw [← h]
      · right
        rw [rhSpots]
        exact List.mem_append_right _ (List.mem_map_of_mem _ h)

/-- A catalog identifier holds "rh" at its front only. -/
theorem rhSpots_catalog : ∀ t ∈ catalog, rhSpots t.data = [(lhAlias t).data] := by
  decide

theorem replace1_accepted : ∀ k ∈ acceptedKinds, strings.Replace1 k "lh" "rh" ∈ catalog := by
  decide

/-- The kinds whose normalized form is a catalog identifier. -/
theorem normalized_in_catalog_iff (name : String) :
    strings.Replace1 name "lh" "rh" ∈ catalog ↔ name ∈ acceptedKinds := by
  constructor
  · intro h
    have hpre := replaceFirst_preimage name.data (strings.Replace1 name "lh" "rh").data rfl
    rw [rhSpots_catalog _ h, List.mem_singleton] at hpre
    rw [acceptedKinds, List.mem_append, List.mem_map]
    rcases hpre with hd | hd
    · left
      rw [String.ext hd]
      exact h
    · right
      exact ⟨_, h, (String.ext hd).symm⟩
  · exact replace1_accepted name

/-- The dispatcher runs a builder when the normalized kind is in the catalog
and fails with the unknown-kind error otherwise. -/
theorem createWidgets_route {σ : Type} [CaseTables] (ms : HostWidget σ) (widget : Widget)
    (tui : Tui) (s : Svc σ) :
    (strings.Replace1 widget.Name "lh" "rh" ∈ catalog →
        ∃ b ∈ builders,
          CreateWidgets ms widget tui s
            = (⟨some tui, ms.service⟩, b ⟨some tui, ms.service⟩ widget s))
      ∧ (strings.Replace1 widget.Name "lh" "rh" ∉ catalog →
          CreateWidgets ms widget tui s
            = (⟨some tui, ms.service⟩, Built.fail (errCantFind widget.Name) s)) := by
  unfold CreateWidgets
  dsimp only
  generalize strings.Replace1 widget.Name "lh" "rh" = name
  by_cases h0 : name = rhUptime
  · rw [if_pos h0]
    exact ⟨fun _ => ⟨boxUptime, by simp [builders], rfl⟩,
      fun hn => absurd (by simp [catalog, h0]) hn⟩
  rw [if_neg h0]
  by_cases h1 : name = rhLoad
  · rw [if_pos h1]
    exact ⟨fun _ => ⟨boxLoad, by simp [builders], rfl⟩,
      fun hn => absurd (by simp [catalog, h1]) hn⟩
  rw [if_neg h1]
  by_cases h2 : name = rhProcesses
  · rw [if_pos h2]
    exact ⟨fun _ => ⟨boxProcesses, by simp [builders], rfl⟩,
      fun hn => absurd (by simp [catalog, h2]) hn⟩
  rw [if_neg h2]
  by_cases h3 : name = rhBarMemory
  · rw [if_pos h3]
    exact ⟨fun _ => ⟨barMemory, by simp [builders], rfl⟩,
      fun hn => absurd (by simp [catalog, h3]) hn⟩
  rw [if_neg h3]
  by_cases h4 : name = rhBoxCPURate
  · rw [if_pos h4]
    exact ⟨fun _ => ⟨boxCPURate, by simp [builders], rfl⟩,
      fun hn => absurd (by simp [catalog, h4]) hn⟩
  rw [if_neg h4]
  by_cases h5 : name = rhBoxMemRate
  · rw [if_pos h5]
    exact ⟨fun _ => ⟨boxMemRate, by simp [builders], rfl⟩,
      fun hn => absurd (by simp [catalog, h5]) hn⟩
  rw [if_neg h5]
  by_cases h6 : name = rhBoxSwapRate
  · rw [if_pos h6]
    exact ⟨fun _ => ⟨boxSwapRate, by simp [builders], rfl⟩,
      fun hn => absurd (by simp [catalog, h6]) hn⟩
  rw [if_neg h6]
  by_cases h7 : name = rhBoxNetIO
  · rw [if_pos h7]
    exact ⟨fun _ => ⟨ boxNetIO, by simp [builders], rfl⟩,
      fun hn => absurd (by simp [catalog, h7]) hn⟩
  rw [if_neg h7]
  by_cases h8 : name = rhBoxDiskIO
  · rw [if_pos h8]
    exact ⟨fun _ => ⟨ boxDiskIO, by simp [builders], rfl⟩,
      fun hn => absurd (by simp [catalog, h8]) hn⟩
  rw [if_neg h8]
  by_cases h9 : name = rhBarRates
  · rw [if_pos h9]
    exact ⟨fun _ => ⟨barRates, by simp [builders], rfl⟩,
      fun hn => absurd (by simp [catalog, h9]) hn⟩
  rw [if_neg h9]
  by_cases h10 : name = rhTableDisk
  · rw [if_pos h10]
    exact ⟨fun _ => ⟨tableDisk, by simp [builders], rfl⟩,
      fun hn => absurd (by simp [catalog, h10]) hn⟩
  rw [if_neg h10]
  by_cases h11 : name = rhTable
  · rw [if_pos h11]
    exact ⟨fun _ => ⟨table, by simp [builders], rfl⟩,
      fun hn => absurd (by simp [catalog, h11]) hn⟩
  rw [if_neg h11]
  refine ⟨fun hin => ?_, fun _ => rfl⟩
  simp only [catalog, List.mem_cons, List.mem_singleton, List.not_mem_nil, or_false] at hin
  rcases hin with h | h | h | h | h | h | h | h | h | h | h | h <;> contradiction

/-- C19: CreateWidgets runs a builder on a kind string exactly when the
string is one of 24 strings, the 12 catalog identifiers and the 12 obtained
from them by writing "lh" for the leading "rh"; on every other string it
fails with the unknown-kind error. All 24 begin with "rh." or "lh.", so no
string with "lh" elsewhere or with another front normalizes into the
catalog. -/
theorem createWidgets_accepts_iff {σ : Type} [CaseTables] (ms : HostWidget σ)
    (name : String) (opts : Options) (tui : Tui) (s : Svc σ) :
    acceptedKinds.length = 24 ∧ acceptedKinds.Nodup
      ∧ (∀ k ∈ acceptedKinds,
          ['r', 'h', '.'].isPrefixOf k.data = true ∨ ['l', 'h', '.'].isPrefixOf k.data = true)
      ∧ (strings.Replace1 name "lh" "rh" ∈ catalog ↔ name ∈ acceptedKinds)
      ∧ (name ∈ acceptedKinds →
          ∃ b ∈ builders,
            CreateWidgets ms ⟨name, opts⟩ tui s
              = (⟨some tui, ms.service⟩, b ⟨some tui, ms.service⟩ ⟨name, opts⟩ s))
      ∧ (name ∉ acceptedKinds →
          CreateWidgets ms ⟨name, opts⟩ tui s
            = (⟨some tui, ms.service⟩, Built.fail (errCantFind name) s)) := by
  have hiff := normalized_in_catalog_iff name
  have hroute := createWidgets_route ms ⟨name, opts⟩ tui s
  refine ⟨by decide, by decide, by decide, hiff, ?_, ?_⟩
  · intro h
    exact hroute.1 (hiff.2 h)
  · intro h
    exact hroute.2 (fun hc => h (hiff.1 hc))

theorem createWidgets_accepts_iff_witness :
    "lh.table" ∈ acceptedKinds ∧ "rh.box_ulhptime" ∉ acceptedKinds
      ∧ CreateWidgets ⟨none, sampleHost⟩ ⟨"rh.box_ulhptime", []⟩ ⟨1⟩ freshSvc
          = (⟨some ⟨1⟩, sampleHost⟩, Built.fail (errCantFind "rh.box_ulhptime") freshSvc) :=
  have hn : "rh.box_ulhptime" ∉ acceptedKinds := by decide
  ⟨by decide, hn,
    (createWidgets_accepts_iff ⟨none, sampleHost⟩ "rh.box_ulhptime" [] ⟨1⟩
      freshSvc).2.2.2.2.2 hn⟩

/-! ## Day extraction -/

/-- The days and the rest the first loop leaves for a non-negative duration. -/
theorem dayLoop_nonneg (t : Int) (h0 : 0 ≤ t) :
    ∃ (n : Nat) (r : Int), dayLoop 0 t = (n, r)
      ∧ (n : Int) * (24 * time.Hour) + r = t ∧ 0 ≤ r ∧ r ≤ 24 * time.Hour
      ∧ (t ≤ 24 * time.Hour → n = 0) ∧ (0 < t → 0 < r) := by
  have hH : time.Hour = 3600000000000 := by decide
  by_cases ht : t = 0
  · subst ht
    exact ⟨0, 0, dayLoop_le 0 0 (by decide), by simp, le_refl 0, by decide,
      fun _ => rfl, fun h => absurd h (lt_irrefl 0)⟩
  · have hpos : 0 < t := lt_of_le_of_ne h0 (Ne.symm ht)
    have hr1 : 0 < t - ((t - 1) / 86400000000000) * 86400000000000 := by omega
    have hr2 : t - ((t - 1) / 86400000000000) * 86400000000000 ≤ 86400000000000 := by omega
    have hq : 0 ≤ (t - 1) / 86400000000000 := by omega
    have hcast : (((t - 1) / 86400000000000).toNat : Int) = (t - 1) / 86400000000000 :=
      Int.toNat_of_nonneg hq
    have hdecomp : (((t - 1) / 86400000000000).toNat : Int) * (24 * time.Hour)
        + (t - ((t - 1) / 86400000000000) * 86400000000000) = t := by
      rw [hcast, hH]; omega
    have hloop := dayLoop_blocks ((t - 1) / 86400000000000).toNat 0
      (t - ((t - 1) / 86400000000000) * 86400000000000) (by rw [hH]; omega) (Or.inr hr1)
    rw [hdecomp, Nat.zero_add] at hloop
    refine ⟨_, _, hloop, hdecomp, hr1.le, by rw [hH]; omega, ?_, fun _ => hr1⟩
    intro h24
    rw [hH] at h24
    have : (t - 1) / 86400000000000 = 0 := by omega
    rw [this]
    rfl

/-- C20: day extraction ends for every duration, with at most 24 hours left
and nothing for the second loop to do; for a non-negative truncated duration
t it ends with a day count n and a rest r such that n * 24h + r = t and
0 <= r <= 24h, with n = 0 when t <= 24h and r > 0 when t > 0, so that
n = ceil(t / 24h) - 1 for t > 0; an exact multiple of 24 hours keeps a rest
of 24 hours: 24h renders as "24h 0m 0s" and 48h as "1d 24h 0m 0s". -/
theorem day_extraction :
    (∀ (days : Nat) (dur : Int), ∃ (n : Nat) (r : Int),
        dayLoop days dur = (n, r) ∧ r ≤ 24 * time.Hour ∧ dayLoop n r = (n, r))
      ∧ (∀ t : Int, 0 ≤ t →
          ((dayLoop 0 t).1 : Int) * (24 * time.Hour) + (dayLoop 0 t).2 = t
            ∧ 0 ≤ (dayLoop 0 t).2 ∧ (dayLoop 0 t).2 ≤ 24 * time.Hour
            ∧ (t ≤ 24 * time.Hour → (dayLoop 0 t).1 = 0)
            ∧ (0 < t → 0 < (dayLoop 0 t).2)
            ∧ (0 < t →
                ((dayLoop 0 t).1 : Int) = ⌈(t : ℚ) / ((24 * time.Hour : Int) : ℚ)⌉ - 1))
      ∧ formatSeconds (24 * time.Hour) = "24h 0m 0s"
      ∧ formatSeconds (48 * time.Hour) = "1d 24h 0m 0s" := by
  refine ⟨?_, ?_, ?_, ?_⟩
  · intro days dur
    exact ⟨(dayLoop days dur).1, (dayLoop days dur).2, rfl, dayLoop_post days dur,
      dayLoop_le _ _ (dayLoop_post days dur)⟩
  · intro t h0
    obtain ⟨n, r, hl, hsum, hr0, hr24, hn0, hrpos⟩ := dayLoop_nonneg t h0
    rw [hl]
    refine ⟨hsum, hr0, hr24, hn0, hrpos, ?_⟩
    intro hpos
    have hr := hrpos hpos
    have hD : (0 : ℚ) < ((24 * time.Hour : Int) : ℚ) := by
      have : (0 : Int) < 24 * time.Hour := by decide
      exact_mod_cast this
    have hsumq : (t : ℚ) = (n : ℚ) * ((24 * time.Hour : Int) : ℚ) + (r : ℚ) := by
      exact_mod_cast hsum.symm
    have hrq : (0 : ℚ) < (r : ℚ) := by exact_mod_cast hr
    have hr24q : (r : ℚ) ≤ ((24 * time.Hour : Int) : ℚ) := by exact_mod_cast hr24
    have hceil : ⌈(t : ℚ) / ((24 * time.Hour : Int) : ℚ)⌉ = (n : Int) + 1 := by
      rw [Int.ceil_eq_iff]
      constructor
      · rw [lt_div_iff₀ hD, hsumq]
        push_cast at hrq hr24q ⊢
        linarith
      · rw [div_le_iff₀ hD, hsumq]
        push_cast at hrq hr24q ⊢
        linarith
    show (n : Int) = _
    rw [hceil]
    ring
  · have hb := formatSeconds_blocks 0 86400 0 (by decide) (Or.inl rfl) (by decide)
    have harg : 24 * time.Hour
        = (((0 * 86400 + 86400 : Nat) : Int) * 1000000000 + ((0 : Nat) : Int)) := by decide
    rw [harg, hb]
    decide
  · have hb := formatSeconds_blocks 1 86400 0 (by decide) (Or.inr (by decide)) (by decide)
    have harg : 48 * time.Hour
        = (((1 * 86400 + 86400 : Nat) : Int) * 1000000000 + ((0 : Nat) : Int)) := by decide
    rw [harg, hb]
    decide

end Devdash
